import Mathlib

/-!
Shallow embedding of the in-memory cache and session stores of the
SW-Design repository (`src/app/utils/cache_manager.py` and
`src/app/utils/session_manager.py`), together with theorems settling the
specification claims about them.

Modelling conventions:
* Python dictionaries are association lists in insertion order (CPython
  dicts preserve insertion order; assignment to an existing key keeps its
  position, a new key is appended, `pop` removes the single entry).
* Wall-clock readings (`time.time()` / `datetime.utcnow()`) are integers
  passed explicitly to each operation as a `now` argument.
* The `threading` locks are no-ops under this single-threaded functional
  semantics; each Python method becomes a function from the store state to
  a result paired with the new store state. The one place where a lock is
  behaviourally relevant even single-threaded —
  `add_message_to_session` re-acquiring its own held non-reentrant
  per-session lock inside `get_session`/`update_session`, which blocks
  forever — is modelled explicitly by the lock-aware definitions
  `get_session_locked`, `update_session_locked` and
  `add_message_to_session_locked` below, where `none` stands for a call
  that never returns.
* Stored values are opaque to both stores, so the state types are
  parametric in a value type `α`.
-/

set_option linter.unusedSectionVars false

namespace SWDesign

/-- Look up the value for a key: Python `d[k]` / `d.get(k)` on a dictionary
represented as an association list in insertion order. -/
def alookup {κ β : Type} [BEq κ] : List (κ × β) → κ → Option β
  | [], _ => none
  | p :: l, k => if p.1 == k then some p.2 else alookup l k

/-- Python dict assignment `d[k] = v`: overwrite in place when the key is
present (keeping its position in insertion order), otherwise append. -/
def aset {κ β : Type} [BEq κ] : List (κ × β) → κ → β → List (κ × β)
  | [], k, v => [(k, v)]
  | p :: l, k, v => if p.1 == k then (k, v) :: l else p :: aset l k v

/-- Python `d.pop(k, None)` / `del d[k]`: remove the entry with the key. -/
def aerase {κ β : Type} [BEq κ] : List (κ × β) → κ → List (κ × β)
  | [], _ => []
  | p :: l, k => if p.1 == k then l else p :: aerase l k

/-- The keys of an association list, in insertion order. -/
def akeys {κ β : Type} (l : List (κ × β)) : List κ :=
  l.map Prod.fst

/-- Python `min(items, key=f)` over a nonempty list `p :: l`: the first item
attaining the minimal projection (a later item replaces the running
candidate only when strictly smaller, exactly as Python `min` keeps the
earliest minimum). -/
def pickMin {β : Type} (f : β → Int) (p : β) (l : List β) : β :=
  l.foldl (fun best q => if f q < f best then q else best) p

/-! ## Cache Store: `CacheManager` (src/app/utils/cache_manager.py) -/

/-- The per-entry record stored in `self.cache_metadata` by
`CacheManager.set`. -/
structure CacheMeta where
  created_at : Int
  ttl : Int
  expires_at : Int
  access_count : Nat
  deriving DecidableEq

/-- The mutable state of a `CacheManager` instance: the three parallel
dictionaries `cache_data`, `cache_metadata` and `access_times`, the
construction-time configuration and the `self.stats` counters. -/
structure CacheManager (α : Type) where
  default_ttl : Int
  max_size : Nat
  cache_data : List (String × α)
  cache_metadata : List (String × CacheMeta)
  access_times : List (String × Int)
  hits : Nat
  misses : Nat
  sets : Nat
  deletes : Nat
  evictions : Nat
  cleanups : Nat

namespace CacheManager

variable {α : Type}

/-- Python `CacheManager.__init__`. -/
def init (α : Type) (default_ttl : Int) (max_size : Nat) : CacheManager α :=
  { default_ttl := default_ttl, max_size := max_size,
    cache_data := [], cache_metadata := [], access_times := [],
    hits := 0, misses := 0, sets := 0, deletes := 0, evictions := 0, cleanups := 0 }

/-- Stand-in for `hashlib.md5(key.encode()).hexdigest()`, an external
library call that is not part of this repository: an executable digest.
`normalize_key` only calls it on keys longer than 250 characters, and no
claim exercises such a key, so no theorem depends on this function's
value. -/
def md5_hexdigest (s : String) : String :=
  toString s.hash

/-- Python `CacheManager._normalize_key` (all callers pass strings, so the
`isinstance` branch converting non-strings is identity here). -/
def normalize_key (key : String) : String :=
  if key.length > 250 then md5_hexdigest key else key

/-- Python `CacheManager._is_expired`: missing metadata counts as expired;
otherwise expired iff `current_time > expires_at` (strict). -/
def is_expired (st : CacheManager α) (key : String) (now : Int) : Bool :=
  match alookup st.cache_metadata key with
  | none => true
  | some md => now > md.expires_at

/-- Python `CacheManager._delete_key`: pop the key from all three dictionaries. -/
def delete_key (st : CacheManager α) (key : String) : CacheManager α :=
  { st with
      cache_data := aerase st.cache_data key,
      cache_metadata := aerase st.cache_metadata key,
      access_times := aerase st.access_times key }

/-- Python `CacheManager._evict_lru`: delete the key whose access time is minimal
(`min(self.access_times.items(), key=lambda x: x[1])[0]`); no-op on an
empty `access_times`. -/
def evict_lru (st : CacheManager α) : CacheManager α :=
  match st.access_times with
  | [] => st
  | p :: rest =>
      let lru_key := (pickMin (fun q => q.2) p rest).1
      { st.delete_key lru_key with evictions := st.evictions + 1 }

/-- Python `CacheManager.get`: miss when the normalized key is absent; lazy
deletion plus a miss when it is present but expired; otherwise refresh the
access time, count a hit and return the value. -/
def get (st : CacheManager α) (key : String) (now : Int) :
    Option α × CacheManager α :=
  let nk := normalize_key key
  match alookup st.cache_data nk with
  | none => (none, { st with misses := st.misses + 1 })
  | some v =>
      if st.is_expired nk now then
        let st1 := st.delete_key nk
        (none, { st1 with misses := st1.misses + 1 })
      else
        (some v,
          { st with
              access_times := aset st.access_times nk now,
              hits := st.hits + 1 })

/-- Python `CacheManager.set`: resolve the TTL default, normalize the key, evict
the LRU entry when `len(self.cache_data) >= self.max_size`, then write
value, metadata (`expires_at = now + ttl`, `access_count = 1`) and access
time, and count the set. -/
def set (st : CacheManager α) (key : String) (value : α)
    (ttl : Option Int) (now : Int) : Bool × CacheManager α :=
  let t := ttl.getD st.default_ttl
  let nk := normalize_key key
  let st1 := if st.cache_data.length ≥ st.max_size then st.evict_lru else st
  (true,
    { st1 with
        cache_data := aset st1.cache_data nk value,
        cache_metadata := aset st1.cache_metadata nk
          { created_at := now, ttl := t, expires_at := now + t, access_count := 1 },
        access_times := aset st1.access_times nk now,
        sets := st1.sets + 1 })

/-- Python `CacheManager.cleanup_expired`: collect every key with
`current_time > expires_at`, delete them all, count the cleanup and return
how many were removed. -/
def cleanup_expired (st : CacheManager α) (now : Int) : Nat × CacheManager α :=
  let expired := st.cache_metadata.filter (fun p => now > p.2.expires_at)
  let st1 := expired.foldl (fun s p => s.delete_key p.1) st
  (expired.length, { st1 with cleanups := st1.cleanups + 1 })

/-- Exact decimal rounding to two places, modelling Python `round(x, 2)`:
`⌊100·q + 1/2⌋ / 100`, computed directly on the reduced fraction of `q`
(`Int.fdiv` is floor division and `q.den > 0`, so
`(200·q.num + q.den).fdiv (2·q.den) = ⌊100·q + 1/2⌋`). Python rounds
binary floats half-to-even; the model rounds the exact rational half-up —
no claim exercises a half-way point or a float-representation artifact, so
the difference is irrelevant to every theorem below. -/
def round2 (q : ℚ) : ℚ :=
  ((Int.fdiv (200 * q.num + (q.den : ℤ)) (2 * (q.den : ℤ)) : ℤ) : ℚ) / 100

/-- The record returned by `CacheManager.get_stats` (the fields the claims
mention). -/
structure Stats where
  cache_size : Nat
  max_size : Nat
  hit_rate : ℚ
  total_requests : Nat
  hits : Nat
  misses : Nat
  deriving DecidableEq

/-- Python `CacheManager.get_stats`: `hit_rate` is the percentage
`hits / (hits + misses) * 100` rounded to two decimals, or `0` when there
have been no requests. -/
def get_stats (st : CacheManager α) : Stats :=
  let total := st.hits + st.misses
  let hr : ℚ := if total > 0 then (st.hits : ℚ) / (total : ℚ) * 100 else 0
  { cache_size := st.cache_data.length, max_size := st.max_size,
    hit_rate := round2 hr, total_requests := total,
    hits := st.hits, misses := st.misses }

end CacheManager

/-! ## Session Store: `SessionManager` (src/app/utils/session_manager.py)

Pure-value model. `get_session` returns the stored record as a value; for
every operation below this is observationally equivalent to the Python
code's shallow `dict.copy()`, because each mutating path writes its whole
record back through `update_session`. The reference/aliasing behaviour of
the shallow copy itself is the subject of claim C5 and is modelled
separately (`RefModel` below). Session records carry the fixed fields the
repository's callers use; the claims only ever pass `user_id` inside
`initial_data`, so `create_session` takes that optional field. -/

/-- An element of `conversation_history`, built by
`SessionManager.add_message_to_session`. -/
structure Message (α : Type) where
  role : String
  content : String
  timestamp : Int
  metadata : List (String × α)
  deriving DecidableEq

/-- The session dictionary stored in `self.sessions`. -/
structure SessionData (α : Type) where
  session_id : String
  created_at : Int
  last_activity : Int
  user_id : Option Int
  state : String
  conversation_history : List (Message α)
  context : List (String × α)
  preferences : List (String × α)
  deriving DecidableEq

/-- The record stored in `self.session_metadata`. -/
structure SessionMeta where
  created_timestamp : Int
  last_access_timestamp : Int
  access_count : Nat
  deriving DecidableEq

/-- The mutable state of a `SessionManager` instance (the cleanup `Timer`
thread is outside this single-threaded model; `cleanup_expired_sessions`
is modelled as an explicit operation). -/
structure SessionManager (α : Type) where
  session_timeout : Int
  max_sessions : Nat
  sessions : List (String × SessionData α)
  user_sessions : List (Int × List String)
  session_metadata : List (String × SessionMeta)
  total_sessions_created : Nat
  active_sessions : Nat
  expired_sessions_cleaned : Nat

namespace SessionManager

variable {α : Type}

/-- Python `SessionManager.__init__` (without starting the cleanup timer). -/
def init (α : Type) (session_timeout : Int) (max_sessions : Nat) : SessionManager α :=
  { session_timeout := session_timeout, max_sessions := max_sessions,
    sessions := [], user_sessions := [], session_metadata := [],
    total_sessions_created := 0, active_sessions := 0, expired_sessions_cleaned := 0 }

/-- Python `SessionManager._is_session_expired`: missing metadata counts as
expired; otherwise expired iff
`current_time - last_access_timestamp > session_timeout` (strict). -/
def is_session_expired (st : SessionManager α) (sid : String) (now : Int) : Bool :=
  match alookup st.session_metadata sid with
  | none => true
  | some md => now - md.last_access_timestamp > st.session_timeout

/-- Python `SessionManager._update_session_access`: bump `last_access_timestamp`
to now and increment `access_count` (when metadata exists). -/
def update_session_access (st : SessionManager α) (sid : String) (now : Int) :
    SessionManager α :=
  match alookup st.session_metadata sid with
  | none => st
  | some md =>
      { st with
          session_metadata := aset st.session_metadata sid
            { md with last_access_timestamp := now, access_count := md.access_count + 1 } }

/-- Python `SessionManager._delete_session`: pop the record and its metadata,
remove the id from the per-user index (Python guards with the *truthiness*
of `user_id`, so a `user_id` of `0` is never unindexed; the
`defaultdict` access `self.user_sessions[user_id]` creates an empty entry
when the user key is absent), delete the user key when its list becomes
empty, and refresh `active_sessions`. -/
def delete_session_core (st : SessionManager α) (sid : String) :
    Bool × SessionManager α :=
  let uid? := (alookup st.sessions sid).bind (fun d => d.user_id)
  let st1 := { st with
      sessions := aerase st.sessions sid,
      session_metadata := aerase st.session_metadata sid }
  let st2 :=
    match uid? with
    | none => st1
    | some uid =>
        if uid = 0 then st1
        else
          match alookup st1.user_sessions uid with
          | none => { st1 with user_sessions := aset st1.user_sessions uid [] }
          | some cur =>
              if cur.contains sid then
                let cur2 := cur.erase sid
                if cur2.isEmpty then
                  { st1 with user_sessions := aerase st1.user_sessions uid }
                else
                  { st1 with user_sessions := aset st1.user_sessions uid cur2 }
              else st1
  (true, { st2 with active_sessions := st2.sessions.length })

/-- Python `SessionManager._cleanup_oldest_session`: delete the session whose
metadata `last_access_timestamp` is minimal (first minimum in insertion
order, as Python `min`); no-op when there is no metadata. -/
def cleanup_oldest_session (st : SessionManager α) : SessionManager α :=
  match st.session_metadata with
  | [] => st
  | p :: rest =>
      let oldest := (pickMin (fun q => q.2.last_access_timestamp) p rest).1
      (st.delete_session_core oldest).2

/-- Python `SessionManager.create_session`: evict the globally oldest session when
`len(self.sessions) >= self.max_sessions`, store the fresh record and its
metadata, append the id to the per-user index when `user_id` is truthy, and
update the statistics. -/
def create_session (st : SessionManager α) (sid : String)
    (init_user_id : Option Int) (now : Int) : Bool × SessionManager α :=
  let st1 := if st.sessions.length ≥ st.max_sessions then st.cleanup_oldest_session else st
  let data : SessionData α :=
    { session_id := sid, created_at := now, last_activity := now,
      user_id := init_user_id, state := "active",
      conversation_history := [], context := [], preferences := [] }
  let st2 := { st1 with
      sessions := aset st1.sessions sid data,
      session_metadata := aset st1.session_metadata sid
        { created_timestamp := now, last_access_timestamp := now, access_count := 1 } }
  let st3 :=
    match init_user_id with
    | none => st2
    | some uid =>
        if uid = 0 then st2
        else
          { st2 with
              user_sessions := aset st2.user_sessions uid
                (((alookup st2.user_sessions uid).getD []) ++ [sid]) }
  (true,
    { st3 with
        total_sessions_created := st3.total_sessions_created + 1,
        active_sessions := st3.sessions.length })

/-- Python `SessionManager.get_session`: absent when the id is not stored; lazy
deletion and absent when expired; otherwise refresh the access metadata and
return (a copy of) the record. -/
def get_session (st : SessionManager α) (sid : String) (now : Int) :
    Option (SessionData α) × SessionManager α :=
  match alookup st.sessions sid with
  | none => (none, st)
  | some sd =>
      if st.is_session_expired sid now then
        (none, (st.delete_session_core sid).2)
      else
        (some sd, st.update_session_access sid now)

/-- Python `SessionManager.update_session`. The Python method merges the
`update_data` dictionary into the stored record and then stamps
`last_activity = now`; every caller in the repository passes a complete
record (the copy obtained from `get_session`), so the merge is a record
replacement here. -/
def update_session (st : SessionManager α) (sid : String)
    (update_data : SessionData α) (now : Int) : Bool × SessionManager α :=
  match alookup st.sessions sid with
  | none => (false, st)
  | some _ =>
      if st.is_session_expired sid now then
        (false, (st.delete_session_core sid).2)
      else
        let st1 := { st with
            sessions := aset st.sessions sid { update_data with last_activity := now } }
        (true, st1.update_session_access sid now)

/-- Python `SessionManager.add_message_to_session`, lock-elided: fetch the
record via `get_session`, append the new message, trim to the last
`max_history = 100` entries when the length exceeds the cap
(`history[-max_history:]`), and write the record back via
`update_session`. This is the behaviour of the method's critical-section
body only: the real method first acquires the non-reentrant
`session_locks[session_id]` and then `get_session` re-acquires the same
lock, so the actual call deadlocks — see
`add_message_to_session_locked` below for the lock-aware semantics. -/
def add_message_to_session (st : SessionManager α) (sid : String)
    (role : String) (content : String) (metadata : List (String × α))
    (now : Int) : Bool × SessionManager α :=
  match st.get_session sid now with
  | (none, st1) => (false, st1)
  | (some sd, st1) =>
      let message : Message α :=
        { role := role, content := content, timestamp := now, metadata := metadata }
      let hist0 := sd.conversation_history ++ [message]
      let hist := if hist0.length > 100 then hist0.drop (hist0.length - 100) else hist0
      st1.update_session sid { sd with conversation_history := hist } now

/-- Python `SessionManager.get_conversation_history`:
`history[-limit:] if len(history) > limit else history` (Python slice
semantics: `[-0:]` is the whole list). -/
def get_conversation_history (st : SessionManager α) (sid : String)
    (limit : Nat) (now : Int) : List (Message α) × SessionManager α :=
  match st.get_session sid now with
  | (none, st1) => ([], st1)
  | (some sd, st1) =>
      let history := sd.conversation_history
      (if history.length > limit then
          (if limit = 0 then history else history.drop (history.length - limit))
        else history, st1)

/-- The loop body of `SessionManager.get_user_sessions`: iterate over a
snapshot of the user's id list; collect live records; for an id on which
`get_session` returned `None`, run
`self.user_sessions[user_id].remove(session_id)` — a `defaultdict` access
(which creates an empty entry when the user key is gone) followed by
`list.remove`, which raises `ValueError` when the id is no longer there
(because `_delete_session` already pruned it); the surrounding
`try/except` turns that exception into an empty result list. -/
def get_user_sessions_go (uid : Int) (now : Int) :
    List String → SessionManager α → List (SessionData α) →
    List (SessionData α) × SessionManager α
  | [], st, acc => (acc.reverse, st)
  | sid :: rest, st, acc =>
      match st.get_session sid now with
      | (some sd, st1) => get_user_sessions_go uid now rest st1 (sd :: acc)
      | (none, st1) =>
          match alookup st1.user_sessions uid with
          | none =>
              ([], { st1 with user_sessions := aset st1.user_sessions uid [] })
          | some cur =>
              if cur.contains sid then
                get_user_sessions_go uid now rest
                  { st1 with user_sessions := aset st1.user_sessions uid (cur.erase sid) }
                  acc
              else ([], st1)

/-- Python `SessionManager.get_user_sessions`: snapshot
`self.user_sessions.get(user_id, [])` and run the pruning loop. -/
def get_user_sessions (st : SessionManager α) (uid : Int) (now : Int) :
    List (SessionData α) × SessionManager α :=
  get_user_sessions_go uid now ((alookup st.user_sessions uid).getD []) st []

end SessionManager

/-! ### Lock-aware semantics of `add_message_to_session` (claim C4)

Every public `SessionManager` method that touches one session wraps its
body in `with self.session_locks[session_id]:`, a *non-reentrant*
`threading.Lock` drawn from a `defaultdict`. `add_message_to_session`
acquires that lock and then, still holding it, calls `self.get_session`
(and would call `self.update_session`), whose first statement acquires the
very same lock object. A second acquisition of a held non-reentrant lock
blocks forever — deterministically, even with a single thread — so the
real call never returns. The definitions below make the held per-session
locks explicit (as the list of session ids whose lock the current call
chain holds); `none` models a call that never returns. -/

namespace SessionManager

/-- Python `with self.session_locks[session_id]:` around the body of
`get_session`: blocks forever (`none`) when this call chain already holds
the session's lock, since `threading.Lock` is not reentrant; otherwise the
body runs as in the lock-elided `get_session`. -/
def get_session_locked {α : Type} (held : List String) (st : SessionManager α)
    (sid : String) (now : Int) :
    Option (Option (SessionData α) × SessionManager α) :=
  if held.contains sid then none
  else some (st.get_session sid now)

/-- Python `with self.session_locks[session_id]:` around the body of
`update_session`, with the same non-reentrancy behaviour. -/
def update_session_locked {α : Type} (held : List String) (st : SessionManager α)
    (sid : String) (update_data : SessionData α) (now : Int) :
    Option (Bool × SessionManager α) :=
  if held.contains sid then none
  else some (st.update_session sid update_data now)

/-- Python `SessionManager.add_message_to_session` with the lock
acquisitions made explicit: the method itself acquires
`session_locks[session_id]` (so `sid` is held for the whole body) and then
calls `get_session` and, on success, `update_session`, each of which tries
to re-acquire that held lock. -/
def add_message_to_session_locked {α : Type} (st : SessionManager α) (sid : String)
    (role content : String) (metadata : List (String × α)) (now : Int) :
    Option (Bool × SessionManager α) :=
  let held := [sid]
  match get_session_locked held st sid now with
  | none => none
  | some (none, st1) => some (false, st1)
  | some (some sd, st1) =>
      let message : Message α :=
        { role := role, content := content, timestamp := now, metadata := metadata }
      let hist0 := sd.conversation_history ++ [message]
      let hist := if hist0.length > 100 then hist0.drop (hist0.length - 100) else hist0
      update_session_locked held st1 sid { sd with conversation_history := hist } now

end SessionManager

/-! ## Reference-semantics model of `get_session`'s shallow copy (claim C5)

`SessionManager.get_session` ends with `return self.sessions[session_id].copy()`.
`dict.copy()` duplicates only the top-level slots of the session dictionary:
the `conversation_history` list object and the `context` dictionary object
are *shared* between the stored record and the returned copy. To reason
about what a caller's in-place mutation of the returned object does to the
store, this fragment models those two nested objects as heap references:
a session record holds addresses into a heap of list objects and dict
objects, and `dict.copy()` is a fresh top-level record containing the same
addresses. -/

namespace RefModel

/-- Top-level slots of a stored session dictionary; `history_ref` and
`context_ref` are heap addresses of the nested `conversation_history` list
and `context` dict. -/
structure SessionObj where
  session_id : String
  created_at : Int
  last_activity : Int
  user_id : Option Int
  state : String
  history_ref : Nat
  context_ref : Nat
  deriving DecidableEq

/-- The heap of nested Python objects reachable from session records. -/
structure Heap (α : Type) where
  lists : List (Nat × List (Message α))
  dicts : List (Nat × List (String × α))
  deriving DecidableEq

/-- The fragment of `SessionManager` state that claim C5 exercises (the
per-user index and statistics are irrelevant to copy isolation and
omitted). -/
structure Store (α : Type) where
  session_timeout : Int
  sessions : List (String × SessionObj)
  session_metadata : List (String × SessionMeta)
  heap : Heap α
  deriving DecidableEq

variable {α : Type}

/-- Python `SessionManager._is_session_expired` on the reference model. -/
def Store.is_session_expired (st : Store α) (sid : String) (now : Int) : Bool :=
  match alookup st.session_metadata sid with
  | none => true
  | some md => now - md.last_access_timestamp > st.session_timeout

/-- Python `SessionManager._update_session_access` on the reference model. -/
def Store.update_session_access (st : Store α) (sid : String) (now : Int) : Store α :=
  match alookup st.session_metadata sid with
  | none => st
  | some md =>
      { st with
          session_metadata := aset st.session_metadata sid
            { md with last_access_timestamp := now, access_count := md.access_count + 1 } }

/-- Python `SessionManager.get_session` on the reference model: the successful
return value is `self.sessions[session_id].copy()` — a fresh top-level
record (a plain value here) that still contains the *same*
`history_ref`/`context_ref` addresses as the stored record, because
`dict.copy()` is shallow. Expired records are dropped from `sessions` and
`session_metadata` as in `_delete_session` (the per-user index is outside
this fragment). -/
def Store.get_session (st : Store α) (sid : String) (now : Int) :
    Option SessionObj × Store α :=
  match alookup st.sessions sid with
  | none => (none, st)
  | some sd =>
      if st.is_session_expired sid now then
        (none, { st with
            sessions := aerase st.sessions sid,
            session_metadata := aerase st.session_metadata sid })
      else
        (some sd, st.update_session_access sid now)

/-- A caller-side in-place `list.append` on a heap list object, e.g.
`record["conversation_history"].append(msg)` executed on the record
returned by `get_session`. This is external code acting through a
reference; it does not go through any store method. -/
def Store.mutate_history (st : Store α) (r : Nat) (m : Message α) : Store α :=
  { st with heap := { st.heap with
      lists := aset st.heap.lists r (((alookup st.heap.lists r).getD []) ++ [m]) } }

/-- A caller-side in-place dict assignment on a heap dict object, e.g.
`record["context"]["k"] = v` executed on the record returned by
`get_session`. -/
def Store.mutate_context (st : Store α) (r : Nat) (k : String) (v : α) : Store α :=
  { st with heap := { st.heap with
      dicts := aset st.heap.dicts r (aset ((alookup st.heap.dicts r).getD []) k v) } }

/-- Dereference a session record: the data a caller actually observes when
reading the record's history and context through its references. -/
def Store.observe (st : Store α) (obj : SessionObj) :
    List (Message α) × List (String × α) :=
  ((alookup st.heap.lists obj.history_ref).getD [],
   (alookup st.heap.dicts obj.context_ref).getD [])

end RefModel

/-! ## Call sequences and concrete runs used by the claims -/

/-- The arguments of one `CacheManager.set` call. -/
structure SetCall (α : Type) where
  key : String
  value : α
  ttl : Option Int
  now : Int

/-- Run a sequence of `CacheManager.set` calls left to right. -/
def runSets {α : Type} : CacheManager α → List (SetCall α) → CacheManager α
  | st, [] => st
  | st, c :: cs => runSets (st.set c.key c.value c.ttl c.now).2 cs

/-- The arguments of one `SessionManager.create_session` call. -/
structure CreateCall where
  sid : String
  user_id : Option Int
  now : Int

/-- Run a sequence of `SessionManager.create_session` calls left to right. -/
def runCreates {α : Type} : SessionManager α → List CreateCall → SessionManager α
  | st, [] => st
  | st, c :: cs => runCreates (st.create_session c.sid c.user_id c.now).2 cs

/-- The arguments of one `SessionManager.add_message_to_session` call on a
fixed session. -/
structure AddCall (α : Type) where
  role : String
  content : String
  metadata : List (String × α)
  now : Int

/-- Run a sequence of `add_message_to_session` calls on one session. -/
def runAdds {α : Type} (sid : String) :
    SessionManager α → List (AddCall α) → SessionManager α
  | st, [] => st
  | st, c :: cs =>
      runAdds sid (st.add_message_to_session sid c.role c.content c.metadata c.now).2 cs

/-- The Python trimming slice `l[-n:]` applied when the length exceeds `n`
(as in `add_message_to_session`): keeps the last `n` elements, is the
identity on shorter lists. -/
def lastSlice {β : Type} (n : Nat) (l : List β) : List β :=
  if l.length > n then l.drop (l.length - n) else l

/-- The message value `add_message_to_session` builds from its arguments. -/
def mkMessage {α : Type} (c : AddCall α) : Message α :=
  { role := c.role, content := c.content, timestamp := c.now, metadata := c.metadata }

/-- Concrete run for claim C3 (the spec scenario): `max_size = 2`,
`set "a" 1` at time 0, `set "b" 2` at time 1, `get "a"` at time 2,
`set "c" 3` at time 3. -/
def c3run : CacheManager Int :=
  (((((CacheManager.init Int 3600 2).set "a" 1 none 0).2.set "b" 2 none 1).2.get
      "a" 2).2.set "c" 3 none 3).2

/-- Concrete run for claim C8: a default cache, one `set` at time 0, then a
hit (`get "k"`) and a miss (`get "other"`). -/
def c8run : CacheManager Int :=
  ((((CacheManager.init Int 3600 10).set "k" 1 none 0).2.get "k" 0).2.get "other" 0).2

/-- Concrete run for claim C10: `max_size = 2`, `set "a" 1` at time 0,
`set "b" 2` at time 1, `get "a"` at time 2, then the overwrite
`set "a" 9` at time 3 with the store at capacity. -/
def c10run : CacheManager Int :=
  (((((CacheManager.init Int 3600 2).set "a" 1 none 0).2.set "b" 2 none 1).2.get
      "a" 2).2.set "a" 9 none 3).2

/-- Concrete run for claim C6: `session_timeout = 10`, session `"s1"`
created at time 0 for user 7, then a passive `get_session` read at
time 5. -/
def c6run : SessionManager Int :=
  (((SessionManager.init Int 10 5).create_session "s1" (some 7) 0).2.get_session
      "s1" 5).2

/-- Concrete run for claim C7: `session_timeout = 10`, sessions `"s1"` and
`"s2"` created for user 7 at time 0, then a successful `get_session "s2"`
at time 5 (so that at time 12 `"s1"` is idle-expired while `"s2"` is
live). -/
def c7run : SessionManager Int :=
  ((((SessionManager.init Int 10 5).create_session "s1" (some 7) 0).2.create_session
      "s2" (some 7) 0).2.get_session "s2" 5).2

/-- Concrete store for claim C5: one session `"s1"` whose (initially empty)
history list lives at heap address 0 and context dict at address 1. -/
def c5store : RefModel.Store Int :=
  { session_timeout := 3600,
    sessions := [("s1",
      { session_id := "s1", created_at := 0, last_activity := 0,
        user_id := some 7, state := "active", history_ref := 0, context_ref := 1 })],
    session_metadata := [("s1",
      { created_timestamp := 0, last_access_timestamp := 0, access_count := 1 })],
    heap := { lists := [(0, [])], dicts := [(1, [])] } }

/-- The message a caller appends in place in the claim C5 scenario. -/
def c5msg : Message Int :=
  { role := "user", content := "hello", timestamp := 1, metadata := [] }

/-- Well-formedness of a `CacheManager` state as a model of three parallel
Python dictionaries: the three maps are keyed identically (they are
written and erased in lockstep) and keys are duplicate-free.
`CacheManager.init` establishes it and every operation preserves it. -/
def CacheWF {α : Type} (st : CacheManager α) : Prop :=
  akeys st.cache_metadata = akeys st.cache_data ∧
  akeys st.access_times = akeys st.cache_data ∧
  (akeys st.cache_data).Nodup

/-- Well-formedness of a `SessionManager` state: `sessions` and
`session_metadata` are keyed identically and keys are duplicate-free. -/
def SessionWF {α : Type} (st : SessionManager α) : Prop :=
  akeys st.session_metadata = akeys st.sessions ∧
  (akeys st.sessions).Nodup

/-! ## Association-list lemmas -/

section AListLemmas

variable {κ β : Type} [BEq κ] [LawfulBEq κ]

theorem akeys_nil : akeys ([] : List (κ × β)) = [] := rfl

theorem akeys_cons (p : κ × β) (l : List (κ × β)) :
    akeys (p :: l) = p.1 :: akeys l := rfl

theorem alookup_cons (p : κ × β) (l : List (κ × β)) (k : κ) :
    alookup (p :: l) k = if p.1 == k then some p.2 else alookup l k := rfl

theorem alookup_eq_none {l : List (κ × β)} {k : κ} :
    alookup l k = none ↔ k ∉ akeys l := by
  induction l with
  | nil => simp [alookup, akeys]
  | cons p l ih =>
      by_cases h : p.1 = k
      · simp [alookup, akeys, h]
      · have hne : ¬ k = p.1 := fun hh => h hh.symm
        simp [alookup_cons, akeys_cons, h, hne, ih]

theorem alookup_isSome {l : List (κ × β)} {k : κ} :
    (alookup l k).isSome = true ↔ k ∈ akeys l := by
  rcases h : alookup l k with _ | v
  · simpa using alookup_eq_none.mp h
  · simp only [Option.isSome_some, true_iff]
    by_contra hk
    rw [← alookup_eq_none] at hk
    simp [hk] at h

theorem alookup_aset_self (l : List (κ × β)) (k : κ) (v : β) :
    alookup (aset l k v) k = some v := by
  induction l with
  | nil => simp [aset, alookup]
  | cons p l ih =>
      by_cases h : p.1 = k
      · simp [aset, alookup, h]
      · simp [aset, alookup, h, ih]

theorem alookup_aset_ne (l : List (κ × β)) {k k' : κ} (v : β) (h : k' ≠ k) :
    alookup (aset l k v) k' = alookup l k' := by
  induction l with
  | nil => simp [aset, alookup, Ne.symm h]
  | cons p l ih =>
      by_cases hp : p.1 = k
      · subst hp
        have hne : (p.1 == k') = false := by
          simpa [beq_eq_false_iff_ne] using (Ne.symm h)
        simp [aset, alookup_cons, hne]
      · simp only [aset, beq_iff_eq, hp, if_false, alookup_cons]
        by_cases hp' : p.1 = k'
        · simp [hp']
        · simp [hp', ih]

theorem akeys_aset (l : List (κ × β)) (k : κ) (v : β) :
    akeys (aset l k v) = if k ∈ akeys l then akeys l else akeys l ++ [k] := by
  induction l with
  | nil => simp [aset, akeys]
  | cons p l ih =>
      by_cases h : p.1 = k
      · simp [aset, akeys_cons, h]
      · have hne : ¬ k = p.1 := fun hh => h hh.symm
        by_cases hm : k ∈ akeys l
        · simp [aset, akeys_cons, h, hne, hm, ih]
        · simp [aset, akeys_cons, h, hne, hm, ih]

theorem length_aset (l : List (κ × β)) (k : κ) (v : β) :
    (aset l k v).length = if k ∈ akeys l then l.length else l.length + 1 := by
  have h1 : (aset l k v).length = (akeys (aset l k v)).length := by
    simp [akeys]
  have h2 : l.length = (akeys l).length := by simp [akeys]
  rw [h1, akeys_aset, h2]
  by_cases hm : k ∈ akeys l <;> simp [hm]

theorem alookup_aerase_ne (l : List (κ × β)) {k k' : κ} (h : k' ≠ k) :
    alookup (aerase l k) k' = alookup l k' := by
  induction l with
  | nil => simp [aerase]
  | cons p l ih =>
      by_cases hp : p.1 = k
      · subst hp
        have hne : (p.1 == k') = false := by
          simpa [beq_eq_false_iff_ne] using (Ne.symm h)
        simp [aerase, alookup_cons, hne]
      · simp only [aerase, beq_iff_eq, hp, if_false, alookup_cons, ih]

theorem alookup_aerase_self {l : List (κ × β)} {k : κ}
    (hnd : (akeys l).Nodup) : alookup (aerase l k) k = none := by
  induction l with
  | nil => simp [aerase, alookup]
  | cons p l ih =>
      rw [akeys_cons, List.nodup_cons] at hnd
      by_cases hp : p.1 = k
      · subst hp
        simpa [aerase, alookup_eq_none] using hnd.1
      · simp [aerase, alookup_cons, hp, ih hnd.2]

theorem akeys_aerase (l : List (κ × β)) (k : κ) :
    akeys (aerase l k) = (akeys l).eraseP (fun a => a == k) := by
  induction l with
  | nil => simp [aerase, akeys]
  | cons p l ih =>
      by_cases hp : p.1 = k
      · simp [aerase, akeys_cons, hp, List.eraseP_cons]
      · simp [aerase, akeys_cons, hp, List.eraseP_cons, ih]

theorem length_aerase_of_mem {l : List (κ × β)} {k : κ}
    (h : k ∈ akeys l) : (aerase l k).length = l.length - 1 := by
  have h1 : (aerase l k).length = (akeys (aerase l k)).length := by simp [akeys]
  have h2 : l.length = (akeys l).length := by simp [akeys]
  rw [h1, akeys_aerase, h2]
  exact List.length_eraseP_of_mem h (by simp)

theorem nodup_akeys_aerase {l : List (κ × β)} (k : κ)
    (hnd : (akeys l).Nodup) : (akeys (aerase l k)).Nodup := by
  rw [akeys_aerase]
  exact List.Nodup.sublist (List.eraseP_sublist _) hnd

theorem nodup_akeys_aset {l : List (κ × β)} (k : κ) (v : β)
    (hnd : (akeys l).Nodup) : (akeys (aset l k v)).Nodup := by
  rw [akeys_aset]
  by_cases hm : k ∈ akeys l
  · simpa [hm]
  · simp only [hm, if_false]
    refine List.Nodup.append hnd (List.nodup_singleton k) ?_
    intro a ha hb
    simp only [List.mem_singleton] at hb
    exact hm (hb ▸ ha)

theorem mem_akeys_aerase {l : List (κ × β)} {k k' : κ}
    (h : k' ∈ akeys (aerase l k)) : k' ∈ akeys l := by
  rw [akeys_aerase] at h
  exact (List.eraseP_sublist _).mem h

end AListLemmas

/-! ## `pickMin` lemmas (Python `min(items, key=f)`) -/

section PickMinLemmas

variable {β : Type}

theorem pickMin_spec (f : β → Int) (p : β) (l : List β) :
    pickMin f p l ∈ p :: l ∧ ∀ q ∈ p :: l, f (pickMin f p l) ≤ f q := by
  induction l generalizing p with
  | nil =>
      refine ⟨by simp [pickMin], ?_⟩
      intro q hq
      simp only [List.mem_singleton] at hq
      simp [pickMin, hq]
  | cons r l ih =>
      have step : pickMin f p (r :: l) = pickMin f (if f r < f p then r else p) l := rfl
      obtain ⟨hmem, hmin⟩ := ih (if f r < f p then r else p)
      have hple : f (if f r < f p then r else p) ≤ f p := by
        by_cases hlt : f r < f p
        · simp [hlt, le_of_lt hlt]
        · simp [hlt]
      have hrle : f (if f r < f p then r else p) ≤ f r := by
        by_cases hlt : f r < f p
        · simp [hlt]
        · simp [hlt, not_lt.mp hlt]
      constructor
      · rw [step]
        rcases List.mem_cons.mp hmem with h | h
        · rw [h]
          by_cases hlt : f r < f p
          · simp [hlt]
          · simp [hlt]
        · simp [List.mem_cons, h]
      · intro q hq
        rw [step]
        rcases List.mem_cons.mp hq with h | h
        · rw [h]
          exact le_trans (hmin _ (List.mem_cons_self _ _)) hple
        · rcases List.mem_cons.mp h with h' | h'
          · rw [h']
            exact le_trans (hmin _ (List.mem_cons_self _ _)) hrle
          · exact hmin q (List.mem_cons_of_mem _ h')

end PickMinLemmas

/-! ## Cache Store lemmas -/

namespace CacheManager

variable {α : Type}

theorem get_absent (st : CacheManager α) (key : String) (now : Int)
    (hv : alookup st.cache_data (normalize_key key) = none) :
    st.get key now = (none, { st with misses := st.misses + 1 }) := by
  unfold get
  simp only [hv]

theorem get_expired (st : CacheManager α) (key : String) (now : Int) (v : α)
    (hv : alookup st.cache_data (normalize_key key) = some v)
    (hexp : st.is_expired (normalize_key key) now = true) :
    st.get key now =
      (none, { st.delete_key (normalize_key key) with misses := st.misses + 1 }) := by
  unfold get
  simp only [hv, hexp, if_true]
  simp [delete_key]

theorem get_hit (st : CacheManager α) (key : String) (now : Int) (v : α)
    (hv : alookup st.cache_data (normalize_key key) = some v)
    (hexp : st.is_expired (normalize_key key) now = false) :
    st.get key now =
      (some v, { st with access_times := aset st.access_times (normalize_key key) now,
                         hits := st.hits + 1 }) := by
  unfold get
  simp only [hv, hexp, Bool.false_eq_true, if_false]

/-- Inversion: a `get` that returns a value found the normalized key
present and unexpired. -/
theorem get_some_inv {st : CacheManager α} {key : String} {now : Int} {v : α}
    (h : (st.get key now).1 = some v) :
    alookup st.cache_data (normalize_key key) = some v ∧
    st.is_expired (normalize_key key) now = false := by
  rcases hl : alookup st.cache_data (normalize_key key) with _ | v'
  · rw [get_absent st key now hl] at h
    simp at h
  · rcases hexp : st.is_expired (normalize_key key) now with _ | _
    · rw [get_hit st key now v' hl hexp] at h
      simp only [Option.some.injEq] at h
      exact ⟨by rw [h], rfl⟩
    · rw [get_expired st key now v' hl hexp] at h
      simp at h

/-- The metadata record that `set` stores for the written key: creation
time `now`, the resolved TTL, `expires_at = now + ttl`, access count 1. -/
theorem set_metadata (st : CacheManager α) (key : String) (value : α)
    (ttl : Option Int) (now : Int) :
    alookup ((st.set key value ttl now).2).cache_metadata (normalize_key key) =
      some { created_at := now, ttl := ttl.getD st.default_ttl,
             expires_at := now + ttl.getD st.default_ttl, access_count := 1 } := by
  unfold set
  simp only
  exact alookup_aset_self _ _ _

end CacheManager

/-! ## Claims C1, C8, C9 (Cache Store `get` behaviour and accounting) -/

/-- C1: for a key whose stored metadata satisfies
`expires_at = created_at + ttl` (which is exactly what `set` stores, final
conjunct), any `get` at a time strictly greater than `created_at + ttl`
returns absent, counts a miss (leaving hits unchanged), and physically
removes the entry from all three maps — regardless of what else (such as a
`cleanup_expired` run) happened between the `set` and the `get`, since the
state `st` is arbitrary. -/
theorem claim_C1_ttl_expiry_get {α : Type} (st : CacheManager α) (key : String)
    (now : Int) (v : α) (md : CacheMeta)
    (hwf : CacheWF st)
    (hv : alookup st.cache_data (CacheManager.normalize_key key) = some v)
    (hmd : alookup st.cache_metadata (CacheManager.normalize_key key) = some md)
    (hlink : md.expires_at = md.created_at + md.ttl)
    (hnow : md.created_at + md.ttl < now) :
    (st.get key now).1 = none ∧
    (st.get key now).2.misses = st.misses + 1 ∧
    (st.get key now).2.hits = st.hits ∧
    alookup (st.get key now).2.cache_data (CacheManager.normalize_key key) = none ∧
    alookup (st.get key now).2.cache_metadata (CacheManager.normalize_key key) = none ∧
    alookup (st.get key now).2.access_times (CacheManager.normalize_key key) = none ∧
    (∀ (st0 : CacheManager α) (k : String) (w : α) (ttl : Option Int) (t : Int),
      ∃ md0, alookup ((st0.set k w ttl t).2).cache_metadata
          (CacheManager.normalize_key k) = some md0 ∧
        md0.expires_at = md0.created_at + md0.ttl ∧ md0.created_at = t ∧
        md0.ttl = ttl.getD st0.default_ttl) := by
  obtain ⟨hwf1, hwf2, hwf3⟩ := hwf
  have hexp : st.is_expired (CacheManager.normalize_key key) now = true := by
    unfold CacheManager.is_expired
    simp [hmd, hlink ▸ hnow]
  rw [CacheManager.get_expired st key now v hv hexp]
  refine ⟨rfl, rfl, rfl, ?_, ?_, ?_, ?_⟩
  · exact alookup_aerase_self hwf3
  · exact alookup_aerase_self (hwf1 ▸ hwf3)
  · exact alookup_aerase_self (hwf2 ▸ hwf3)
  · intro st0 k w ttl t
    exact ⟨_, CacheManager.set_metadata st0 k w ttl t, rfl, rfl, rfl⟩

/-- Witness for C1 at a concrete input: key `"k"` stored with TTL 60 at
time 0, read at time 61. -/
theorem claim_C1_witness :
    ((((CacheManager.init Int 3600 10).set "k" 7 (some 60) 0).2).get "k" 61).1 = none ∧
    ((((CacheManager.init Int 3600 10).set "k" 7 (some 60) 0).2).get "k" 61).2.misses =
      (((CacheManager.init Int 3600 10).set "k" 7 (some 60) 0).2).misses + 1 := by
  have h := claim_C1_ttl_expiry_get
    ((((CacheManager.init Int 3600 10).set "k" 7 (some 60) 0).2))
    "k" 61 7 ⟨0, 60, 60, 1⟩
    (by constructor
        · decide
        · constructor
          · decide
          · decide)
    (by decide) (by decide) (by decide) (by decide)
  exact ⟨h.1, h.2.1⟩

/-- The helper `round2` is the identity on integers (helper for evaluating
`get_stats.hit_rate` on concrete runs). -/
theorem round2_intCast (n : ℤ) : CacheManager.round2 ((n : ℚ)) = (n : ℚ) := by
  unfold CacheManager.round2
  have hnum : ((n : ℚ)).num = n := Rat.intCast_num n
  have hden : ((n : ℚ)).den = 1 := Rat.intCast_den n
  rw [hnum, hden]
  simp only [Nat.cast_one]
  have hfd : Int.fdiv (200 * n + (1 : ℤ)) (2 * 1) = 100 * n := by
    have h2 : (0 : ℤ) ≤ 2 * 1 := by norm_num
    rw [Int.fdiv_eq_ediv _ h2]
    omega
  rw [hfd]
  push_cast
  ring

/-- C8 counterexample: after one hit and one miss, `get_stats` reports
`hit_rate = 50` (a percentage rounded to two decimals), not the ratio
`hits / (hits + misses) = 1/2` the claim asserts. -/
theorem claim_C8_counterexample :
    c8run.get_stats.hits = 1 ∧ c8run.get_stats.misses = 1 ∧
    c8run.get_stats.hit_rate = 50 ∧
    ¬ c8run.get_stats.hit_rate =
        (c8run.get_stats.hits : ℚ) /
          ((c8run.get_stats.hits : ℚ) + (c8run.get_stats.misses : ℚ)) := by
  have hh : c8run.hits = 1 := by decide
  have hm : c8run.misses = 1 := by decide
  have hsh : c8run.get_stats.hits = 1 := by decide
  have hsm : c8run.get_stats.misses = 1 := by decide
  have h50 : c8run.get_stats.hit_rate = 50 := by
    unfold CacheManager.get_stats
    simp only [hh, hm]
    norm_num
    have h50cast : (50 : ℚ) = ((50 : ℤ) : ℚ) := by norm_num
    rw [h50cast, round2_intCast]
  refine ⟨hsh, hsm, h50, ?_⟩
  rw [h50, hsh, hsm]
  norm_num

/-- C8, amended: unconditionally — on any state, including one with no
prior requests — a `get` on a present, unexpired key increments the hit
counter and leaves the miss counter unchanged, and a `get` on an absent or
expired key increments the miss counter and leaves the hit counter
unchanged; and whenever `hits + misses > 0` (that condition scoping only
this last part), the `hit_rate` reported by `get_stats` is the percentage
`hits / (hits + misses) * 100` rounded to two decimals (not the bare
ratio). -/
theorem claim_C8_hit_miss_accounting {α : Type} (st : CacheManager α)
    (key : String) (now : Int) (v : α) :
    (alookup st.cache_data (CacheManager.normalize_key key) = some v →
      st.is_expired (CacheManager.normalize_key key) now = false →
      (st.get key now).2.hits = st.hits + 1 ∧ (st.get key now).2.misses = st.misses) ∧
    (alookup st.cache_data (CacheManager.normalize_key key) = none →
      (st.get key now).2.misses = st.misses + 1 ∧ (st.get key now).2.hits = st.hits) ∧
    (alookup st.cache_data (CacheManager.normalize_key key) = some v →
      st.is_expired (CacheManager.normalize_key key) now = true →
      (st.get key now).2.misses = st.misses + 1 ∧ (st.get key now).2.hits = st.hits) ∧
    (0 < st.hits + st.misses →
      st.get_stats.hit_rate =
        CacheManager.round2
          ((st.hits : ℚ) / ((st.hits : ℚ) + (st.misses : ℚ)) * 100)) := by
  refine ⟨?_, ?_, ?_, ?_⟩
  · intro hv hexp
    rw [CacheManager.get_hit st key now v hv hexp]
    exact ⟨rfl, rfl⟩
  · intro hv
    rw [CacheManager.get_absent st key now hv]
    exact ⟨rfl, rfl⟩
  · intro hv hexp
    rw [CacheManager.get_expired st key now v hv hexp]
    exact ⟨rfl, rfl⟩
  · intro hpos
    unfold CacheManager.get_stats
    simp only
    rw [if_pos hpos]
    congr 1
    push_cast
    ring

/-- Witness for C8 at concrete inputs, including the very first `get`s on
a store with zero prior requests (one `set`, then a hit at time 5, a miss
on an absent key, and a miss on the key once expired at time 99999), plus
the `hit_rate` percentage after one hit and one miss. -/
theorem claim_C8_witness :
    ((((CacheManager.init Int 3600 10).set "k" 1 none 0).2.get "k" 5).2.hits =
        (((CacheManager.init Int 3600 10).set "k" 1 none 0).2).hits + 1 ∧
      (((CacheManager.init Int 3600 10).set "k" 1 none 0).2.get "k" 5).2.misses =
        (((CacheManager.init Int 3600 10).set "k" 1 none 0).2).misses) ∧
    ((((CacheManager.init Int 3600 10).set "k" 1 none 0).2.get "other" 5).2.misses =
        (((CacheManager.init Int 3600 10).set "k" 1 none 0).2).misses + 1 ∧
      (((CacheManager.init Int 3600 10).set "k" 1 none 0).2.get "other" 5).2.hits =
        (((CacheManager.init Int 3600 10).set "k" 1 none 0).2).hits) ∧
    ((((CacheManager.init Int 3600 10).set "k" 1 none 0).2.get "k" 99999).2.misses =
        (((CacheManager.init Int 3600 10).set "k" 1 none 0).2).misses + 1 ∧
      (((CacheManager.init Int 3600 10).set "k" 1 none 0).2.get "k" 99999).2.hits =
        (((CacheManager.init Int 3600 10).set "k" 1 none 0).2).hits) ∧
    (0 < c8run.hits + c8run.misses ∧
      c8run.get_stats.hit_rate =
        CacheManager.round2
          ((c8run.hits : ℚ) / ((c8run.hits : ℚ) + (c8run.misses : ℚ)) * 100)) :=
  ⟨(claim_C8_hit_miss_accounting (((CacheManager.init Int 3600 10).set "k" 1 none 0).2)
      "k" 5 1).1 (by decide) (by decide),
   (claim_C8_hit_miss_accounting (((CacheManager.init Int 3600 10).set "k" 1 none 0).2)
      "other" 5 1).2.1 (by decide),
   (claim_C8_hit_miss_accounting (((CacheManager.init Int 3600 10).set "k" 1 none 0).2)
      "k" 99999 1).2.2.1 (by decide) (by decide),
   by decide,
   (claim_C8_hit_miss_accounting c8run "k" 0 1).2.2.2 (by decide)⟩

/-- C9 counterexample: after `set "k"` at time 0 and two successful `get`s
(at times 1 and 2), the entry's `access_count` is still 1, not the claimed
1 + 2: `CacheManager.get` never increments `access_count`. -/
theorem claim_C9_counterexample :
    (((((CacheManager.init Int 3600 10).set "k" 5 none 0).2).get "k" 1).1 = some 5) ∧
    ((((((CacheManager.init Int 3600 10).set "k" 5 none 0).2).get "k" 1).2).get "k" 2).1 =
      some 5 ∧
    (alookup ((((CacheManager.init Int 3600 10).set "k" 5 none 0).2)).cache_metadata
        "k").map CacheMeta.access_count = some 1 ∧
    (alookup (((((((CacheManager.init Int 3600 10).set "k" 5 none 0).2).get "k" 1).2).get
        "k" 2).2).cache_metadata "k").map CacheMeta.access_count = some 1 ∧
    ¬ (alookup (((((((CacheManager.init Int 3600 10).set "k" 5 none 0).2).get "k" 1).2).get
        "k" 2).2).cache_metadata "k").map CacheMeta.access_count = some (1 + 2) := by
  decide

/-- C9, amended: a successful read updates only the entry's last-access
timestamp (`access_times`), used for LRU ranking; it leaves
`cache_metadata` — and in particular the entry's `access_count`, set to 1
at insertion — completely unchanged, as well as the stored data. -/
theorem claim_C9_access_count {α : Type} (st : CacheManager α) (key : String)
    (now : Int) (v : α)
    (h : (st.get key now).1 = some v) :
    alookup (st.get key now).2.access_times (CacheManager.normalize_key key) = some now ∧
    (st.get key now).2.cache_metadata = st.cache_metadata ∧
    (st.get key now).2.cache_data = st.cache_data := by
  obtain ⟨hv, hexp⟩ := CacheManager.get_some_inv h
  rw [CacheManager.get_hit st key now v hv hexp]
  exact ⟨alookup_aset_self _ _ _, rfl, rfl⟩

/-- Witness for C9 at a concrete input: a stored key read successfully. -/
theorem claim_C9_witness :
    alookup (((((CacheManager.init Int 3600 10).set "k" 5 none 0).2).get "k" 1).2).access_times
      (CacheManager.normalize_key "k") = some 1 ∧
    (((((CacheManager.init Int 3600 10).set "k" 5 none 0).2).get "k" 1).2).cache_metadata =
      ((((CacheManager.init Int 3600 10).set "k" 5 none 0).2)).cache_metadata := by
  have h := claim_C9_access_count
    ((((CacheManager.init Int 3600 10).set "k" 5 none 0).2))
    "k" 1 5 (by decide)
  exact ⟨h.1, h.2.1⟩

/-! ## Claims C3 and C10 (LRU eviction in `set`) -/

theorem alookup_of_mem_nodup {κ β : Type} [BEq κ] [LawfulBEq κ]
    {l : List (κ × β)} {pr : κ × β}
    (hnd : (akeys l).Nodup) (hmem : pr ∈ l) : alookup l pr.1 = some pr.2 := by
  induction l with
  | nil => simp at hmem
  | cons q l ih =>
      rw [akeys_cons, List.nodup_cons] at hnd
      rcases List.mem_cons.mp hmem with h | h
      · rw [h]
        simp [alookup_cons]
      · have hq : q.1 ≠ pr.1 := by
          intro hqe
          exact hnd.1 (hqe ▸ List.mem_map_of_mem Prod.fst h)
        have hqb : (q.1 == pr.1) = false := by simpa [beq_eq_false_iff_ne] using hq
        simp [alookup_cons, hqb, ih hnd.2 h]

theorem mem_akeys_aerase_of_ne {κ β : Type} [BEq κ] [LawfulBEq κ]
    {l : List (κ × β)} {k k' : κ} (hne : k' ≠ k) (hmem : k' ∈ akeys l) :
    k' ∈ akeys (aerase l k) := by
  rw [← alookup_isSome] at hmem ⊢
  rwa [alookup_aerase_ne l hne]

/-- Unfolding `CacheManager.set` when the store is at (or beyond)
capacity: the LRU eviction runs first, then the write. -/
theorem CacheManager.set_eq_evict {α : Type} (st : CacheManager α) (key : String)
    (v : α) (ttl : Option Int) (now : Int)
    (hcap : st.cache_data.length ≥ st.max_size) :
    (st.set key v ttl now).2 =
      { st.evict_lru with
          cache_data := aset st.evict_lru.cache_data (normalize_key key) v,
          cache_metadata := aset st.evict_lru.cache_metadata (normalize_key key)
            { created_at := now, ttl := ttl.getD st.default_ttl,
              expires_at := now + ttl.getD st.default_ttl, access_count := 1 },
          access_times := aset st.evict_lru.access_times (normalize_key key) now,
          sets := st.evict_lru.sets + 1 } := by
  unfold CacheManager.set
  simp only [ge_iff_le, hcap, if_true, if_pos]

/-- Unfolding `CacheManager.set` when the store is below capacity: no
eviction, just the write. -/
theorem CacheManager.set_eq_no_evict {α : Type} (st : CacheManager α) (key : String)
    (v : α) (ttl : Option Int) (now : Int)
    (hcap : ¬ st.cache_data.length ≥ st.max_size) :
    (st.set key v ttl now).2 =
      { st with
          cache_data := aset st.cache_data (normalize_key key) v,
          cache_metadata := aset st.cache_metadata (normalize_key key)
            { created_at := now, ttl := ttl.getD st.default_ttl,
              expires_at := now + ttl.getD st.default_ttl, access_count := 1 },
          access_times := aset st.access_times (normalize_key key) now,
          sets := st.sets + 1 } := by
  unfold CacheManager.set
  simp only [ge_iff_le, hcap, if_false, if_neg, not_false_eq_true]

theorem CacheManager.evict_lru_cons {α : Type} (st : CacheManager α)
    (p : String × Int) (rest : List (String × Int))
    (hacc : st.access_times = p :: rest) :
    st.evict_lru =
      { st.delete_key (pickMin (fun q => q.2) p rest).1 with
          evictions := st.evictions + 1 } := by
  unfold CacheManager.evict_lru
  rw [hacc]

/-- Core LRU-eviction fact shared by the eviction claims: a `set` on a
store at capacity evicts a key whose recorded access time is minimal among
all entries, removing it from all three maps (when it is not the key being
written), and shrinking the data map by one when the written key stays
present. -/
theorem set_evicts_lru {α : Type} (st : CacheManager α) (key : String) (v : α)
    (ttl : Option Int) (now : Int)
    (hwf : CacheWF st)
    (hcap : st.cache_data.length ≥ st.max_size)
    (hne : st.access_times ≠ []) :
    ∃ lk tk, alookup st.access_times lk = some tk ∧
      (∀ q ∈ st.access_times, tk ≤ q.2) ∧
      (st.set key v ttl now).2.evictions = st.evictions + 1 ∧
      (lk ≠ CacheManager.normalize_key key →
        alookup (st.set key v ttl now).2.cache_data lk = none ∧
        alookup (st.set key v ttl now).2.cache_metadata lk = none ∧
        alookup (st.set key v ttl now).2.access_times lk = none) ∧
      (lk ≠ CacheManager.normalize_key key →
        CacheManager.normalize_key key ∈ akeys st.cache_data →
        (st.set key v ttl now).2.cache_data.length = st.cache_data.length - 1) := by
  obtain ⟨hwfm, hwfa, hwfnd⟩ := hwf
  obtain ⟨p, rest, hacc⟩ := List.exists_cons_of_ne_nil hne
  obtain ⟨pmem, pmin⟩ := pickMin_spec (fun q : String × Int => q.2) p rest
  rw [← hacc] at pmem pmin
  have hndacc : (akeys st.access_times).Nodup := by rw [hwfa]; exact hwfnd
  have hndmd : (akeys st.cache_metadata).Nodup := by rw [hwfm]; exact hwfnd
  have hset := CacheManager.set_eq_evict st key v ttl now hcap
  have hevict := CacheManager.evict_lru_cons st p rest hacc
  set pk := pickMin (fun q : String × Int => q.2) p rest with hpk
  have hkmem : pk.1 ∈ akeys st.cache_data := by
    rw [← hwfa]
    exact List.mem_map_of_mem Prod.fst pmem
  refine ⟨pk.1, pk.2, alookup_of_mem_nodup hndacc pmem, pmin, ?_, ?_, ?_⟩
  · rw [hset, hevict]
  · intro hnk
    rw [hset, hevict]
    refine ⟨?_, ?_, ?_⟩
    · show alookup (aset (aerase st.cache_data pk.1) _ v) pk.1 = none
      rw [alookup_aset_ne _ _ hnk]
      exact alookup_aerase_self hwfnd
    · show alookup (aset (aerase st.cache_metadata pk.1) _ _) pk.1 = none
      rw [alookup_aset_ne _ _ hnk]
      exact alookup_aerase_self hndmd
    · show alookup (aset (aerase st.access_times pk.1) _ now) pk.1 = none
      rw [alookup_aset_ne _ _ hnk]
      exact alookup_aerase_self hndacc
  · intro hnk hpres
    rw [hset, hevict]
    show (aset (aerase st.cache_data pk.1) (CacheManager.normalize_key key) v).length = _
    have hpres2 : CacheManager.normalize_key key ∈ akeys (aerase st.cache_data pk.1) :=
      mem_akeys_aerase_of_ne (fun h => hnk h.symm) hpres
    rw [length_aset, if_pos hpres2, length_aerase_of_mem hkmem]

/-- C3: when `set` is called with the store at capacity, an entry with
minimal recorded access time is the one evicted before the insert (it
disappears from all three maps); and in the spec's concrete scenario
(`max_size = 2`; `set "a" 1`, `set "b" 2`, `get "a"`, `set "c" 3`) the
store ends up holding exactly `"a" ↦ 1` and `"c" ↦ 3`, with `"b"`
evicted. -/
theorem claim_C3_lru_eviction {α : Type} (st : CacheManager α) (key : String)
    (v : α) (ttl : Option Int) (now : Int)
    (hwf : CacheWF st)
    (hcap : st.cache_data.length ≥ st.max_size)
    (hne : st.access_times ≠ []) :
    (∃ lk tk, alookup st.access_times lk = some tk ∧
      (∀ q ∈ st.access_times, tk ≤ q.2) ∧
      (lk ≠ CacheManager.normalize_key key →
        alookup (st.set key v ttl now).2.cache_data lk = none ∧
        alookup (st.set key v ttl now).2.access_times lk = none)) ∧
    c3run.cache_data = [("a", 1), ("c", 3)] ∧
    alookup c3run.cache_data "b" = none ∧
    c3run.evictions = 1 := by
  obtain ⟨lk, tk, h1, h2, _, h4, _⟩ := set_evicts_lru st key v ttl now hwf hcap hne
  exact ⟨⟨lk, tk, h1, h2, fun hnk => ⟨(h4 hnk).1, (h4 hnk).2.2⟩⟩,
    by decide, by decide, by decide⟩

/-- Witness for C3 at a concrete input: the spec scenario state at the
moment of the final `set "c"`. -/
theorem claim_C3_witness :
    (∃ lk tk,
      alookup ((((((CacheManager.init Int 3600 2).set "a" 1 none 0).2.set "b" 2 none
          1).2.get "a" 2).2)).access_times lk = some tk) := by
  obtain ⟨h, _⟩ := claim_C3_lru_eviction
    ((((((CacheManager.init Int 3600 2).set "a" 1 none 0).2.set "b" 2 none
        1).2.get "a" 2).2))
    "c" 3 none 3
    (by refine ⟨by decide, by decide, by decide⟩)
    (by decide) (by decide)
  obtain ⟨lk, tk, h1, _⟩ := h
  exact ⟨lk, tk, h1⟩

/-- C10: a `set` whose (normalized) key is already present still runs the
LRU eviction when the store is at capacity — the eviction counter is
bumped and an entry with minimal access time is removed — so overwriting
at capacity can delete an unrelated entry; in the concrete scenario
(`max_size = 2`, keys `"a"`, `"b"` present, `"a"` most recently read,
then `set "a" 9`) the unrelated key `"b"` is evicted and the store
shrinks from 2 entries to 1. -/
theorem claim_C10_overwrite_eviction {α : Type} (st : CacheManager α)
    (key : String) (v : α) (ttl : Option Int) (now : Int)
    (hwf : CacheWF st)
    (hcap : st.cache_data.length ≥ st.max_size)
    (hne : st.access_times ≠ [])
    (hpres : CacheManager.normalize_key key ∈ akeys st.cache_data) :
    ((st.set key v ttl now).2.evictions = st.evictions + 1 ∧
      ∃ lk tk, alookup st.access_times lk = some tk ∧
        (∀ q ∈ st.access_times, tk ≤ q.2) ∧
        (lk ≠ CacheManager.normalize_key key →
          alookup (st.set key v ttl now).2.cache_data lk = none ∧
          (st.set key v ttl now).2.cache_data.length = st.cache_data.length - 1)) ∧
    c10run.max_size = 2 ∧
    c10run.cache_data = [("a", 9)] ∧
    c10run.cache_data.length = 1 ∧
    alookup c10run.cache_data "b" = none := by
  obtain ⟨lk, tk, h1, h2, h3, h4, h5⟩ := set_evicts_lru st key v ttl now hwf hcap hne
  exact ⟨⟨h3, lk, tk, h1, h2, fun hnk => ⟨(h4 hnk).1, h5 hnk hpres⟩⟩,
    by decide, by decide, by decide, by decide⟩

/-- Witness for C10 at a concrete input: overwriting `"a"` with the store
`{"a", "b"}` at capacity 2. -/
theorem claim_C10_witness :
    ((((((CacheManager.init Int 3600 2).set "a" 1 none 0).2.set "b" 2 none 1).2.get
        "a" 2).2).set "a" 9 none 3).2.evictions =
      (((((CacheManager.init Int 3600 2).set "a" 1 none 0).2.set "b" 2 none 1).2.get
        "a" 2).2).evictions + 1 := by
  have h := claim_C10_overwrite_eviction
    (((((CacheManager.init Int 3600 2).set "a" 1 none 0).2.set "b" 2 none
        1).2.get "a" 2).2)
    "a" 9 none 3
    (by refine ⟨by decide, by decide, by decide⟩)
    (by decide) (by decide) (by decide)
  exact h.1.1

/-! ## Claim C2 (capacity invariant, both stores) -/

theorem cacheWF_init (α : Type) (dttl : Int) (maxc : Nat) :
    CacheWF (CacheManager.init α dttl maxc) :=
  ⟨rfl, rfl, List.nodup_nil⟩

/-- Keyed-in-lockstep updates preserve equality of key lists. -/
theorem akeys_aset_congr {κ β γ : Type} [BEq κ] [LawfulBEq κ]
    {l : List (κ × β)} {m : List (κ × γ)} (h : akeys l = akeys m)
    (k : κ) (v : β) (w : γ) : akeys (aset l k v) = akeys (aset m k w) := by
  rw [akeys_aset, akeys_aset, h]

theorem akeys_aerase_congr {κ β γ : Type} [BEq κ] [LawfulBEq κ]
    {l : List (κ × β)} {m : List (κ × γ)} (h : akeys l = akeys m)
    (k : κ) : akeys (aerase l k) = akeys (aerase m k) := by
  rw [akeys_aerase, akeys_aerase, h]

/-- The operation `set` preserves well-formedness, never grows the store beyond
`max_size` (for a positive `max_size`), and leaves the configuration
unchanged. -/
theorem CacheManager.set_preserves_wf_size {α : Type} (st : CacheManager α)
    (key : String) (v : α) (ttl : Option Int) (now : Int)
    (hwf : CacheWF st)
    (hsize : st.cache_data.length ≤ st.max_size)
    (hpos : 0 < st.max_size) :
    CacheWF (st.set key v ttl now).2 ∧
    (st.set key v ttl now).2.cache_data.length ≤ st.max_size ∧
    (st.set key v ttl now).2.max_size = st.max_size ∧
    (st.set key v ttl now).2.default_ttl = st.default_ttl := by
  obtain ⟨hwfm, hwfa, hwfnd⟩ := hwf
  by_cases hcap : st.cache_data.length ≥ st.max_size
  · -- at capacity: evict, then insert
    have hlen : st.cache_data.length = st.max_size := le_antisymm hsize hcap
    have hdata_ne : st.cache_data ≠ [] := by
      intro h0
      rw [h0] at hlen
      simp at hlen
      omega
    have hacc_ne : st.access_times ≠ [] := by
      intro h0
      have : akeys st.cache_data = [] := by rw [← hwfa, h0, akeys_nil]
      exact hdata_ne (List.map_eq_nil_iff.mp this)
    obtain ⟨p, rest, hacc⟩ := List.exists_cons_of_ne_nil hacc_ne
    obtain ⟨pmem, _⟩ := pickMin_spec (fun q : String × Int => q.2) p rest
    rw [← hacc] at pmem
    have hset := CacheManager.set_eq_evict st key v ttl now hcap
    have hevict := CacheManager.evict_lru_cons st p rest hacc
    set pk := pickMin (fun q : String × Int => q.2) p rest with hpk
    have hkmem : pk.1 ∈ akeys st.cache_data := by
      rw [← hwfa]
      exact List.mem_map_of_mem Prod.fst pmem
    have hkmd : akeys (aerase st.cache_metadata pk.1) = akeys (aerase st.cache_data pk.1) :=
      akeys_aerase_congr hwfm pk.1
    have hka : akeys (aerase st.access_times pk.1) = akeys (aerase st.cache_data pk.1) :=
      akeys_aerase_congr hwfa pk.1
    have hnd2 : (akeys (aerase st.cache_data pk.1)).Nodup := nodup_akeys_aerase pk.1 hwfnd
    rw [hset, hevict]
    refine ⟨⟨?_, ?_, ?_⟩, ?_, rfl, rfl⟩
    · exact akeys_aset_congr hkmd _ _ _
    · exact akeys_aset_congr hka _ _ _
    · exact nodup_akeys_aset _ _ hnd2
    · show (aset (aerase st.cache_data pk.1) (CacheManager.normalize_key key) v).length ≤ _
      rw [length_aset, length_aerase_of_mem hkmem]
      by_cases hm : CacheManager.normalize_key key ∈ akeys (aerase st.cache_data pk.1)
      · rw [if_pos hm]
        omega
      · rw [if_neg hm]
        omega
  · -- below capacity: plain insert
    have hlt : st.cache_data.length < st.max_size := lt_of_not_ge hcap
    have hset := CacheManager.set_eq_no_evict st key v ttl now hcap
    rw [hset]
    refine ⟨⟨?_, ?_, ?_⟩, ?_, rfl, rfl⟩
    · exact akeys_aset_congr hwfm _ _ _
    · exact akeys_aset_congr hwfa _ _ _
    · exact nodup_akeys_aset _ _ hwfnd
    · show (aset st.cache_data (CacheManager.normalize_key key) v).length ≤ _
      rw [length_aset]
      by_cases hm : CacheManager.normalize_key key ∈ akeys st.cache_data
      · rw [if_pos hm]
        omega
      · rw [if_neg hm]
        omega

theorem runSets_wf_size {α : Type} (calls : List (SetCall α))
    (st : CacheManager α)
    (hwf : CacheWF st)
    (hsize : st.cache_data.length ≤ st.max_size)
    (hpos : 0 < st.max_size) :
    CacheWF (runSets st calls) ∧
    (runSets st calls).cache_data.length ≤ st.max_size ∧
    (runSets st calls).max_size = st.max_size := by
  induction calls generalizing st with
  | nil => exact ⟨hwf, hsize, rfl⟩
  | cons c cs ih =>
      obtain ⟨hwf1, hsize1, hmax1, _⟩ :=
        CacheManager.set_preserves_wf_size st c.key c.value c.ttl c.now hwf hsize hpos
      have hres := ih (st.set c.key c.value c.ttl c.now).2 hwf1 (hmax1 ▸ hsize1)
        (hmax1 ▸ hpos)
      exact ⟨hres.1, hmax1 ▸ hres.2.1, hmax1 ▸ hres.2.2⟩

theorem sessionWF_init (α : Type) (tmo : Int) (maxs : Nat) :
    SessionWF (SessionManager.init α tmo maxs) :=
  ⟨rfl, List.nodup_nil⟩

/-- The internal `_delete_session` erases the id from `sessions` and `session_metadata`;
the per-user index and statistics updates touch no other map, and the
configuration is unchanged. -/
theorem SessionManager.delete_session_core_maps {α : Type} (st : SessionManager α)
    (sid : String) :
    (st.delete_session_core sid).2.sessions = aerase st.sessions sid ∧
    (st.delete_session_core sid).2.session_metadata = aerase st.session_metadata sid ∧
    (st.delete_session_core sid).2.session_timeout = st.session_timeout ∧
    (st.delete_session_core sid).2.max_sessions = st.max_sessions := by
  unfold SessionManager.delete_session_core
  dsimp only
  split
  · exact ⟨rfl, rfl, rfl, rfl⟩
  · split
    · exact ⟨rfl, rfl, rfl, rfl⟩
    · split
      · exact ⟨rfl, rfl, rfl, rfl⟩
      · split
        · split
          · exact ⟨rfl, rfl, rfl, rfl⟩
          · exact ⟨rfl, rfl, rfl, rfl⟩
        · exact ⟨rfl, rfl, rfl, rfl⟩

theorem SessionManager.cleanup_oldest_maps {α : Type} (st : SessionManager α)
    (p : String × SessionMeta) (rest : List (String × SessionMeta))
    (hmd : st.session_metadata = p :: rest) :
    st.cleanup_oldest_session.sessions =
      aerase st.sessions (pickMin (fun q => q.2.last_access_timestamp) p rest).1 ∧
    st.cleanup_oldest_session.session_metadata =
      aerase st.session_metadata (pickMin (fun q => q.2.last_access_timestamp) p rest).1 := by
  have h := SessionManager.delete_session_core_maps st
    (pickMin (fun q => q.2.last_access_timestamp) p rest).1
  have hred : st.cleanup_oldest_session =
      (st.delete_session_core
        (pickMin (fun q => q.2.last_access_timestamp) p rest).1).2 := by
    unfold SessionManager.cleanup_oldest_session
    rw [hmd]
  rw [hred]
  exact ⟨h.1, h.2.1⟩

theorem SessionManager.cleanup_oldest_config {α : Type} (st : SessionManager α) :
    st.cleanup_oldest_session.session_timeout = st.session_timeout ∧
    st.cleanup_oldest_session.max_sessions = st.max_sessions := by
  unfold SessionManager.cleanup_oldest_session
  split
  · exact ⟨rfl, rfl⟩
  · exact ⟨(SessionManager.delete_session_core_maps st _).2.2.1,
      (SessionManager.delete_session_core_maps st _).2.2.2⟩

/-- The operation `create_session` writes the fresh record and its metadata on top of the
(possibly evicted) intermediate state; the per-user index branch touches
neither map. -/
theorem SessionManager.create_session_maps {α : Type} (st : SessionManager α)
    (sid : String) (u : Option Int) (now : Int) :
    (st.create_session sid u now).2.sessions =
      aset (if st.sessions.length ≥ st.max_sessions then st.cleanup_oldest_session
            else st).sessions sid
        { session_id := sid, created_at := now, last_activity := now, user_id := u,
          state := "active", conversation_history := [], context := [],
          preferences := [] } ∧
    (st.create_session sid u now).2.session_metadata =
      aset (if st.sessions.length ≥ st.max_sessions then st.cleanup_oldest_session
            else st).session_metadata sid
        { created_timestamp := now, last_access_timestamp := now, access_count := 1 } := by
  unfold SessionManager.create_session
  dsimp only
  split
  · exact ⟨rfl, rfl⟩
  · split
    · exact ⟨rfl, rfl⟩
    · exact ⟨rfl, rfl⟩

theorem SessionManager.create_session_config {α : Type} (st : SessionManager α)
    (sid : String) (u : Option Int) (now : Int) :
    (st.create_session sid u now).2.session_timeout = st.session_timeout ∧
    (st.create_session sid u now).2.max_sessions = st.max_sessions := by
  obtain ⟨hc1, hc2⟩ := SessionManager.cleanup_oldest_config st
  unfold SessionManager.create_session
  dsimp only
  split
  · constructor
    · show (if st.sessions.length ≥ st.max_sessions then st.cleanup_oldest_session
          else st).session_timeout = st.session_timeout
      split
      · exact hc1
      · rfl
    · show (if st.sessions.length ≥ st.max_sessions then st.cleanup_oldest_session
          else st).max_sessions = st.max_sessions
      split
      · exact hc2
      · rfl
  · split
    · constructor
      · show (if st.sessions.length ≥ st.max_sessions then st.cleanup_oldest_session
            else st).session_timeout = st.session_timeout
        split
        · exact hc1
        · rfl
      · show (if st.sessions.length ≥ st.max_sessions then st.cleanup_oldest_session
            else st).max_sessions = st.max_sessions
        split
        · exact hc2
        · rfl
    · constructor
      · show (if st.sessions.length ≥ st.max_sessions then st.cleanup_oldest_session
            else st).session_timeout = st.session_timeout
        split
        · exact hc1
        · rfl
      · show (if st.sessions.length ≥ st.max_sessions then st.cleanup_oldest_session
            else st).max_sessions = st.max_sessions
        split
        · exact hc2
        · rfl

/-- The operation `create_session` preserves well-formedness and never grows the session
store beyond `max_sessions` (for a positive `max_sessions`). -/
theorem SessionManager.create_preserves_wf_size {α : Type} (st : SessionManager α)
    (sid : String) (u : Option Int) (now : Int)
    (hwf : SessionWF st)
    (hsize : st.sessions.length ≤ st.max_sessions)
    (hpos : 0 < st.max_sessions) :
    SessionWF (st.create_session sid u now).2 ∧
    (st.create_session sid u now).2.sessions.length ≤ st.max_sessions ∧
    (st.create_session sid u now).2.max_sessions = st.max_sessions ∧
    (st.create_session sid u now).2.session_timeout = st.session_timeout := by
  obtain ⟨hwfm, hwfnd⟩ := hwf
  obtain ⟨hs, hm⟩ := SessionManager.create_session_maps st sid u now
  obtain ⟨htmo, hmax⟩ := SessionManager.create_session_config st sid u now
  by_cases hcap : st.sessions.length ≥ st.max_sessions
  · rw [if_pos hcap] at hs hm
    have hlen : st.sessions.length = st.max_sessions := le_antisymm hsize hcap
    have hsess_ne : st.sessions ≠ [] := by
      intro h0
      rw [h0] at hlen
      simp at hlen
      omega
    have hmd_ne : st.session_metadata ≠ [] := by
      intro h0
      have : akeys st.sessions = [] := by rw [← hwfm, h0, akeys_nil]
      exact hsess_ne (List.map_eq_nil_iff.mp this)
    obtain ⟨p, rest, hmdc⟩ := List.exists_cons_of_ne_nil hmd_ne
    obtain ⟨pmem, _⟩ := pickMin_spec (fun q : String × SessionMeta =>
      q.2.last_access_timestamp) p rest
    rw [← hmdc] at pmem
    obtain ⟨hcs, hcm⟩ := SessionManager.cleanup_oldest_maps st p rest hmdc
    set pk := pickMin (fun q : String × SessionMeta => q.2.last_access_timestamp) p rest
      with hpk
    have hkmem : pk.1 ∈ akeys st.sessions := by
      rw [← hwfm]
      exact List.mem_map_of_mem Prod.fst pmem
    rw [hcs] at hs
    rw [hcm] at hm
    have hkeq : akeys (aerase st.session_metadata pk.1) = akeys (aerase st.sessions pk.1) :=
      akeys_aerase_congr hwfm pk.1
    have hnd2 : (akeys (aerase st.sessions pk.1)).Nodup := nodup_akeys_aerase pk.1 hwfnd
    refine ⟨⟨?_, ?_⟩, ?_, hmax, htmo⟩
    · rw [hs, hm]
      exact akeys_aset_congr hkeq _ _ _
    · rw [hs]
      exact nodup_akeys_aset _ _ hnd2
    · rw [hs, length_aset, length_aerase_of_mem hkmem]
      by_cases hmem2 : sid ∈ akeys (aerase st.sessions pk.1)
      · rw [if_pos hmem2]
        omega
      · rw [if_neg hmem2]
        omega
  · rw [if_neg hcap] at hs hm
    have hlt : st.sessions.length < st.max_sessions := lt_of_not_ge hcap
    refine ⟨⟨?_, ?_⟩, ?_, hmax, htmo⟩
    · rw [hs, hm]
      exact akeys_aset_congr hwfm _ _ _
    · rw [hs]
      exact nodup_akeys_aset _ _ hwfnd
    · rw [hs, length_aset]
      by_cases hmem2 : sid ∈ akeys st.sessions
      · rw [if_pos hmem2]
        omega
      · rw [if_neg hmem2]
        omega

theorem runCreates_wf_size {α : Type} (calls : List CreateCall)
    (st : SessionManager α)
    (hwf : SessionWF st)
    (hsize : st.sessions.length ≤ st.max_sessions)
    (hpos : 0 < st.max_sessions) :
    SessionWF (runCreates st calls) ∧
    (runCreates st calls).sessions.length ≤ st.max_sessions ∧
    (runCreates st calls).max_sessions = st.max_sessions := by
  induction calls generalizing st with
  | nil => exact ⟨hwf, hsize, rfl⟩
  | cons c cs ih =>
      obtain ⟨hwf1, hsize1, hmax1, _⟩ :=
        SessionManager.create_preserves_wf_size st c.sid c.user_id c.now hwf hsize hpos
      have hres := ih (st.create_session c.sid c.user_id c.now).2 hwf1
        (hmax1 ▸ hsize1) (hmax1 ▸ hpos)
      exact ⟨hres.1, hmax1 ▸ hres.2.1, hmax1 ▸ hres.2.2⟩

/-- When `create_session` runs at capacity, the evicted session is one with
minimal `last_access_timestamp` among all current sessions. -/
theorem create_evicts_oldest {α : Type} (st : SessionManager α)
    (sid : String) (u : Option Int) (now : Int)
    (hwf : SessionWF st)
    (hcap : st.sessions.length ≥ st.max_sessions)
    (hne : st.session_metadata ≠ []) :
    ∃ ok md, alookup st.session_metadata ok = some md ∧
      (∀ q ∈ st.session_metadata,
        md.last_access_timestamp ≤ q.2.last_access_timestamp) ∧
      (ok ≠ sid → alookup (st.create_session sid u now).2.sessions ok = none) := by
  obtain ⟨hwfm, hwfnd⟩ := hwf
  obtain ⟨p, rest, hmdc⟩ := List.exists_cons_of_ne_nil hne
  obtain ⟨pmem, pmin⟩ := pickMin_spec (fun q : String × SessionMeta =>
    q.2.last_access_timestamp) p rest
  rw [← hmdc] at pmem pmin
  obtain ⟨hs, _⟩ := SessionManager.create_session_maps st sid u now
  rw [if_pos hcap] at hs
  obtain ⟨hcs, _⟩ := SessionManager.cleanup_oldest_maps st p rest hmdc
  rw [hcs] at hs
  set pk := pickMin (fun q : String × SessionMeta => q.2.last_access_timestamp) p rest
    with hpk
  have hndmd : (akeys st.session_metadata).Nodup := by rw [hwfm]; exact hwfnd
  refine ⟨pk.1, pk.2, alookup_of_mem_nodup hndmd pmem, pmin, ?_⟩
  intro hok
  rw [hs, alookup_aset_ne _ _ hok]
  exact alookup_aerase_self hwfnd

/-- C2: starting from an empty store, any sequence of `set` calls keeps the
Cache Store within `max_size` entries, and any sequence of
`create_session` calls keeps the Session Store within `max_sessions`
entries (for positive capacities, the only configurations the spec admits);
moreover whenever a capacity eviction happens, the evicted entry has the
minimal `last_access` timestamp (respectively the minimal
`last_access_timestamp`) among the entries present at eviction time. -/
theorem claim_C2_capacity_invariant {α : Type} (dttl tmo : Int)
    (maxc maxs : Nat) (scalls : List (SetCall α)) (ccalls : List CreateCall)
    (hc : 0 < maxc) (hs : 0 < maxs) :
    (runSets (CacheManager.init α dttl maxc) scalls).cache_data.length ≤ maxc ∧
    (runCreates (SessionManager.init α tmo maxs) ccalls).sessions.length ≤ maxs ∧
    (∀ (st : CacheManager α) (key : String) (v : α) (ttl : Option Int) (now : Int),
      CacheWF st → st.cache_data.length ≥ st.max_size → st.access_times ≠ [] →
      ∃ lk tk, alookup st.access_times lk = some tk ∧
        (∀ q ∈ st.access_times, tk ≤ q.2) ∧
        (lk ≠ CacheManager.normalize_key key →
          alookup (st.set key v ttl now).2.cache_data lk = none)) ∧
    (∀ (st : SessionManager α) (sid : String) (u : Option Int) (now : Int),
      SessionWF st → st.sessions.length ≥ st.max_sessions →
      st.session_metadata ≠ [] →
      ∃ ok md, alookup st.session_metadata ok = some md ∧
        (∀ q ∈ st.session_metadata,
          md.last_access_timestamp ≤ q.2.last_access_timestamp) ∧
        (ok ≠ sid → alookup (st.create_session sid u now).2.sessions ok = none)) := by
  refine ⟨?_, ?_, ?_, ?_⟩
  · exact (runSets_wf_size scalls _ (cacheWF_init α dttl maxc)
      (by simp [CacheManager.init]) hc).2.1
  · exact (runCreates_wf_size ccalls _ (sessionWF_init α tmo maxs)
      (by simp [SessionManager.init]) hs).2.1
  · intro st key v ttl now hwf hcap hne
    obtain ⟨lk, tk, h1, h2, _, h4, _⟩ := set_evicts_lru st key v ttl now hwf hcap hne
    exact ⟨lk, tk, h1, h2, fun hnk => (h4 hnk).1⟩
  · intro st sid u now hwf hcap hne
    exact create_evicts_oldest st sid u now hwf hcap hne

/-- Witness for C2 at a concrete input: three `set` calls into a cache of
capacity 2 and three `create_session` calls into a session store of
capacity 2. -/
theorem claim_C2_witness :
    (runSets (CacheManager.init Int 3600 2)
      [⟨"a", 1, none, 0⟩, ⟨"b", 2, none, 1⟩, ⟨"c", 3, none, 2⟩]).cache_data.length ≤ 2 ∧
    (runCreates (SessionManager.init Int 3600 2)
      [⟨"s1", some 7, 0⟩, ⟨"s2", some 7, 1⟩, ⟨"s3", some 8, 2⟩]).sessions.length ≤ 2 := by
  have h := @claim_C2_capacity_invariant Int 3600 3600 2 2
    [⟨"a", 1, none, 0⟩, ⟨"b", 2, none, 1⟩, ⟨"c", 3, none, 2⟩]
    [⟨"s1", some 7, 0⟩, ⟨"s2", some 7, 1⟩, ⟨"s3", some 8, 2⟩]
    (by decide) (by decide)
  exact ⟨h.1, h.2.1⟩

/-! ## Session Store operation lemmas -/

theorem aset_aset {κ β : Type} [BEq κ] [LawfulBEq κ]
    (l : List (κ × β)) (k : κ) (v w : β) :
    aset (aset l k v) k w = aset l k w := by
  induction l with
  | nil => simp [aset]
  | cons p l ih =>
      by_cases hp : p.1 = k
      · simp [aset, hp]
      · simp [aset, hp, ih]

theorem mem_aset {κ β : Type} [BEq κ] [LawfulBEq κ]
    {l : List (κ × β)} {k : κ} {v : β} {p : κ × β}
    (h : p ∈ aset l k v) : p = (k, v) ∨ p ∈ l := by
  induction l with
  | nil => simpa [aset] using h
  | cons q l ih =>
      by_cases hq : q.1 = k
      · simp only [aset, hq, beq_self_eq_true, if_true] at h
        rcases List.mem_cons.mp h with h | h
        · exact Or.inl h
        · exact Or.inr (List.mem_cons_of_mem _ h)
      · simp only [aset, beq_iff_eq, hq, if_false] at h
        rcases List.mem_cons.mp h with h | h
        · exact Or.inr (h ▸ List.mem_cons_self _ _)
        · rcases ih h with h | h
          · exact Or.inl h
          · exact Or.inr (List.mem_cons_of_mem _ h)

theorem mem_aerase {κ β : Type} [BEq κ] [LawfulBEq κ]
    {l : List (κ × β)} {k : κ} {p : κ × β}
    (h : p ∈ aerase l k) : p ∈ l := by
  induction l with
  | nil => simpa [aerase] using h
  | cons q l ih =>
      by_cases hq : q.1 = k
      · simp only [aerase, hq, beq_self_eq_true, if_true] at h
        exact List.mem_cons_of_mem _ h
      · simp only [aerase, beq_iff_eq, hq, if_false] at h
        rcases List.mem_cons.mp h with h | h
        · exact h ▸ List.mem_cons_self _ _
        · exact List.mem_cons_of_mem _ (ih h)

theorem lastSlice_eq_drop {β : Type} (n : Nat) (l : List β) :
    lastSlice n l = l.drop (l.length - n) := by
  unfold lastSlice
  by_cases h : l.length > n
  · rw [if_pos h]
  · rw [if_neg h]
    have : l.length - n = 0 := by omega
    rw [this, List.drop_zero]

theorem lastSlice_length {β : Type} (n : Nat) (l : List β) :
    (lastSlice n l).length = min n l.length := by
  rw [lastSlice_eq_drop, List.length_drop]
  omega

theorem lastSlice_eq_self {β : Type} {n : Nat} {l : List β}
    (h : l.length ≤ n) : lastSlice n l = l := by
  unfold lastSlice
  rw [if_neg (by omega)]

theorem lastSlice_append_left {β : Type} (n : Nat) (xs ys : List β) :
    lastSlice n (lastSlice n xs ++ ys) = lastSlice n (xs ++ ys) := by
  by_cases hx : xs.length ≤ n
  · rw [lastSlice_eq_self hx]
  · rw [lastSlice_eq_drop n xs, lastSlice_eq_drop, lastSlice_eq_drop,
      List.drop_append_eq_append_drop, List.drop_append_eq_append_drop,
      List.drop_drop]
    have hlen : (xs.drop (xs.length - n)).length = n := by
      rw [List.length_drop]
      omega
    congr 1
    · congr 1
      simp only [List.length_append, hlen, List.length_drop]
      omega
    · congr 1
      simp only [List.length_append, hlen, List.length_drop]
      omega

namespace SessionManager

variable {α : Type}

theorem get_session_absent (st : SessionManager α) (sid : String) (now : Int)
    (hsd : alookup st.sessions sid = none) :
    st.get_session sid now = (none, st) := by
  unfold get_session
  rw [hsd]

theorem get_session_expired (st : SessionManager α) (sid : String) (now : Int)
    (sd : SessionData α)
    (hsd : alookup st.sessions sid = some sd)
    (hexp : st.is_session_expired sid now = true) :
    st.get_session sid now = (none, (st.delete_session_core sid).2) := by
  unfold get_session
  rw [hsd]
  simp only [hexp, if_true]

theorem get_session_success (st : SessionManager α) (sid : String) (now : Int)
    (sd : SessionData α)
    (hsd : alookup st.sessions sid = some sd)
    (hexp : st.is_session_expired sid now = false) :
    st.get_session sid now = (some sd, st.update_session_access sid now) := by
  unfold get_session
  rw [hsd]
  simp only [hexp, Bool.false_eq_true, if_false]

theorem is_session_expired_eq (st : SessionManager α) (sid : String) (now : Int)
    (md : SessionMeta) (hmd : alookup st.session_metadata sid = some md) :
    st.is_session_expired sid now =
      decide (now - md.last_access_timestamp > st.session_timeout) := by
  unfold is_session_expired
  rw [hmd]

theorem is_session_expired_of_no_metadata (st : SessionManager α) (sid : String)
    (now : Int) (hmd : alookup st.session_metadata sid = none) :
    st.is_session_expired sid now = true := by
  unfold is_session_expired
  rw [hmd]

/-- Inversion: `_is_session_expired sid = false` forces the metadata entry to exist. -/
theorem metadata_of_not_expired {st : SessionManager α} {sid : String} {now : Int}
    (hexp : st.is_session_expired sid now = false) :
    ∃ md, alookup st.session_metadata sid = some md ∧
      ¬ now - md.last_access_timestamp > st.session_timeout := by
  rcases hmd : alookup st.session_metadata sid with _ | md
  · rw [is_session_expired_of_no_metadata st sid now hmd] at hexp
    simp at hexp
  · refine ⟨md, rfl, ?_⟩
    rw [is_session_expired_eq st sid now md hmd] at hexp
    simpa using hexp

theorem update_session_access_eq (st : SessionManager α) (sid : String) (now : Int)
    (md : SessionMeta) (hmd : alookup st.session_metadata sid = some md) :
    st.update_session_access sid now =
      { st with
          session_metadata := aset st.session_metadata sid
            ({ md with last_access_timestamp := now,
                       access_count := md.access_count + 1 }) } := by
  unfold update_session_access
  rw [hmd]

theorem update_session_access_sessions (st : SessionManager α) (sid : String)
    (now : Int) :
    (st.update_session_access sid now).sessions = st.sessions ∧
    (st.update_session_access sid now).session_timeout = st.session_timeout := by
  unfold update_session_access
  rcases alookup st.session_metadata sid with _ | md
  · exact ⟨rfl, rfl⟩
  · exact ⟨rfl, rfl⟩

theorem update_session_success (st : SessionManager α) (sid : String)
    (data : SessionData α) (now : Int) (sd0 : SessionData α) (md : SessionMeta)
    (hsd : alookup st.sessions sid = some sd0)
    (hmd : alookup st.session_metadata sid = some md)
    (hexp : st.is_session_expired sid now = false) :
    st.update_session sid data now =
      (true, { st with
          sessions := aset st.sessions sid ({ data with last_activity := now }),
          session_metadata := aset st.session_metadata sid
            ({ md with last_access_timestamp := now,
                       access_count := md.access_count + 1 }) }) := by
  unfold update_session
  rw [hsd]
  simp only [hexp, Bool.false_eq_true, if_false]
  have hmd1 : alookup
      ({ st with
          sessions := aset st.sessions sid
            ({ data with last_activity := now }) } :
        SessionManager α).session_metadata sid = some md := hmd
  rw [update_session_access_eq _ sid now md hmd1]

/-- Unfolding `add_message_to_session` through the `get_session` result. -/
theorem add_message_eq_of_get_none (st : SessionManager α) (sid role content : String)
    (meta : List (String × α)) (now : Int) (st1 : SessionManager α)
    (h : st.get_session sid now = (none, st1)) :
    st.add_message_to_session sid role content meta now = (false, st1) := by
  unfold add_message_to_session
  rw [h]

theorem add_message_eq_of_get_some (st : SessionManager α) (sid role content : String)
    (meta : List (String × α)) (now : Int) (sd : SessionData α)
    (st1 : SessionManager α)
    (h : st.get_session sid now = (some sd, st1)) :
    st.add_message_to_session sid role content meta now =
      st1.update_session sid
        { sd with conversation_history :=
            lastSlice 100 (sd.conversation_history ++
              [{ role := role, content := content, timestamp := now,
                 metadata := meta }]) } now := by
  unfold add_message_to_session
  rw [h]
  rfl

/-- The full effect of a successful `add_message_to_session`: the message
is appended (history trimmed to the last 100), `last_activity` is stamped,
and the access metadata is refreshed (twice: once by the inner
`get_session`, once by `update_session`). -/
theorem add_message_success (st : SessionManager α) (sid role content : String)
    (meta : List (String × α)) (now : Int) (sd : SessionData α) (md : SessionMeta)
    (hsd : alookup st.sessions sid = some sd)
    (hmd : alookup st.session_metadata sid = some md)
    (hlive : ¬ now - md.last_access_timestamp > st.session_timeout)
    (htmo : 0 ≤ st.session_timeout) :
    st.add_message_to_session sid role content meta now =
      (true, { st with
          sessions := aset st.sessions sid
            ({ sd with
                conversation_history :=
                  lastSlice 100 (sd.conversation_history ++
                    [⟨role, content, now, meta⟩]),
                last_activity := now }),
          session_metadata := aset st.session_metadata sid
            ({ md with last_access_timestamp := now,
                       access_count := md.access_count + 2 }) }) := by
  have hexp : st.is_session_expired sid now = false := by
    rw [is_session_expired_eq st sid now md hmd]
    simpa using hlive
  have hget := get_session_success st sid now sd hsd hexp
  rw [update_session_access_eq st sid now md hmd] at hget
  rw [add_message_eq_of_get_some st sid role content meta now sd _ hget]
  set st1 : SessionManager α :=
    { st with
        session_metadata := aset st.session_metadata sid
          ({ md with last_access_timestamp := now,
                     access_count := md.access_count + 1 }) }
    with hst1
  have hsd1 : alookup st1.sessions sid = some sd := hsd
  have hmd1 : alookup st1.session_metadata sid =
      some { md with last_access_timestamp := now,
                     access_count := md.access_count + 1 } :=
    alookup_aset_self _ _ _
  have hexp1 : st1.is_session_expired sid now = false := by
    rw [is_session_expired_eq st1 sid now _ hmd1]
    simp only [decide_eq_false_iff_not]
    show ¬ now - now > st.session_timeout
    omega
  rw [update_session_success st1 sid _ now sd _ hsd1 hmd1 hexp1]
  simp only [hst1]
  rw [aset_aset]

end SessionManager

/-! ## Claim C4 (bounded history) -/

/-- Every `add_message_to_session` call keeps every session's history
within the 100-message cap (the touched session is trimmed to the last
100, untouched sessions are unchanged or deleted). -/
theorem add_message_inv100 {α : Type} (st : SessionManager α)
    (sid role content : String) (meta : List (String × α)) (now : Int)
    (hinv : ∀ p ∈ st.sessions, p.2.conversation_history.length ≤ 100) :
    ∀ p ∈ (st.add_message_to_session sid role content meta now).2.sessions,
      p.2.conversation_history.length ≤ 100 := by
  rcases hsd : alookup st.sessions sid with _ | sd
  · rw [SessionManager.add_message_eq_of_get_none st sid role content meta now st
      (SessionManager.get_session_absent st sid now hsd)]
    exact hinv
  · rcases hexp : st.is_session_expired sid now with _ | _
    · -- live session: fetched, appended, written back
      have hget := SessionManager.get_session_success st sid now sd hsd hexp
      obtain ⟨haccs, hacct⟩ := SessionManager.update_session_access_sessions st sid now
      rw [SessionManager.add_message_eq_of_get_some st sid role content meta now sd _ hget]
      set st1 := st.update_session_access sid now with hst1
      set data : SessionData α :=
        { sd with conversation_history :=
            lastSlice 100 (sd.conversation_history ++ [⟨role, content, now, meta⟩]) }
        with hdata
      rcases hsd1 : alookup st1.sessions sid with _ | sd1
      · unfold SessionManager.update_session
        rw [hsd1]
        intro p hp
        exact hinv p (haccs ▸ hp)
      · rcases hexp1 : st1.is_session_expired sid now with _ | _
        · obtain ⟨md1, hmd1, _⟩ := SessionManager.metadata_of_not_expired hexp1
          rw [SessionManager.update_session_success st1 sid data now sd1 md1 hsd1 hmd1 hexp1]
          intro p hp
          simp only at hp
          rcases mem_aset hp with h | h
          · rw [h]
            simp only
            rw [lastSlice_length]
            omega
          · exact hinv p (haccs ▸ h)
        · unfold SessionManager.update_session
          rw [hsd1]
          simp only [hexp1, if_true]
          intro p hp
          obtain ⟨hds, _, _, _⟩ := SessionManager.delete_session_core_maps st1 sid
          rw [hds] at hp
          exact hinv p (haccs ▸ mem_aerase hp)
    · -- expired session: lazily deleted, call fails
      have hget := SessionManager.get_session_expired st sid now sd hsd hexp
      rw [SessionManager.add_message_eq_of_get_none st sid role content meta now _ hget]
      intro p hp
      obtain ⟨hds, _, _, _⟩ := SessionManager.delete_session_core_maps st sid
      rw [hds] at hp
      exact hinv p (mem_aerase hp)

/-- The call `add_message_to_session` fails exactly on an absent or expired session
(for a non-negative timeout, the only admissible configuration). -/
theorem add_message_false_iff {α : Type} (st : SessionManager α)
    (sid role content : String) (meta : List (String × α)) (now : Int)
    (htmo : 0 ≤ st.session_timeout) :
    (st.add_message_to_session sid role content meta now).1 = false ↔
      (alookup st.sessions sid = none ∨ st.is_session_expired sid now = true) := by
  constructor
  · intro hfail
    by_contra hcon
    push_neg at hcon
    obtain ⟨hne, hnexp⟩ := hcon
    rcases hsd : alookup st.sessions sid with _ | sd
    · exact hne hsd
    · have hexp : st.is_session_expired sid now = false := by
        rcases h : st.is_session_expired sid now with _ | _
        · rfl
        · exact absurd h hnexp
      obtain ⟨md, hmd, hlive⟩ := SessionManager.metadata_of_not_expired hexp
      rw [SessionManager.add_message_success st sid role content meta now sd md
        hsd hmd hlive htmo] at hfail
      simp at hfail
  · intro h
    rcases h with h | h
    · rw [SessionManager.add_message_eq_of_get_none st sid role content meta now st
        (SessionManager.get_session_absent st sid now h)]
    · rcases hsd : alookup st.sessions sid with _ | sd
      · rw [SessionManager.add_message_eq_of_get_none st sid role content meta now st
          (SessionManager.get_session_absent st sid now hsd)]
      · rw [SessionManager.add_message_eq_of_get_none st sid role content meta now _
          (SessionManager.get_session_expired st sid now sd hsd h)]

/-- Running a whole sequence of successful `add_message_to_session` calls:
the final history is the last-100 slice of all messages in arrival order,
and `last_activity` carries the time of the last call. -/
theorem runAdds_spec {α : Type} (calls : List (AddCall α))
    (st : SessionManager α) (sid : String) (sd : SessionData α) (md : SessionMeta)
    (htmo : 0 ≤ st.session_timeout)
    (hsd : alookup st.sessions sid = some sd)
    (hmd : alookup st.session_metadata sid = some md)
    (hlen : sd.conversation_history.length ≤ 100)
    (hchain : List.Chain (fun a b => b - a ≤ st.session_timeout)
      md.last_access_timestamp (calls.map AddCall.now)) :
    ∃ sd', alookup (runAdds sid st calls).sessions sid = some sd' ∧
      sd'.conversation_history =
        lastSlice 100 (sd.conversation_history ++ calls.map mkMessage) ∧
      sd'.conversation_history.length ≤ 100 ∧
      sd'.last_activity = (calls.map AddCall.now).getLastD sd.last_activity := by
  induction calls generalizing st sd md with
  | nil =>
      refine ⟨sd, hsd, ?_, hlen, rfl⟩
      rw [List.map_nil, List.append_nil, lastSlice_eq_self hlen]
  | cons c cs ih =>
      rw [List.map_cons, List.chain_cons] at hchain
      obtain ⟨hstep, hrest⟩ := hchain
      have hlive : ¬ c.now - md.last_access_timestamp > st.session_timeout := by
        omega
      have hadd := SessionManager.add_message_success st sid c.role c.content
        c.metadata c.now sd md hsd hmd hlive htmo
      have hrun : runAdds sid st (c :: cs) =
          runAdds sid (st.add_message_to_session sid c.role c.content c.metadata c.now).2
            cs := rfl
      rw [hrun, hadd]
      set sd1 : SessionData α :=
        { sd with
            conversation_history :=
              lastSlice 100 (sd.conversation_history ++ [⟨c.role, c.content, c.now, c.metadata⟩]),
            last_activity := c.now }
        with hsd1def
      set md1 : SessionMeta :=
        { md with last_access_timestamp := c.now, access_count := md.access_count + 2 }
        with hmd1def
      set st1 : SessionManager α :=
        { st with
            sessions := aset st.sessions sid sd1,
            session_metadata := aset st.session_metadata sid md1 }
        with hst1def
      have hsd1 : alookup st1.sessions sid = some sd1 := alookup_aset_self _ _ _
      have hmd1 : alookup st1.session_metadata sid = some md1 := alookup_aset_self _ _ _
      have hlen1 : sd1.conversation_history.length ≤ 100 := by
        rw [hsd1def]
        simp only
        rw [lastSlice_length]
        omega
      have htmo1 : 0 ≤ st1.session_timeout := htmo
      have hchain1 : List.Chain (fun a b => b - a ≤ st1.session_timeout)
          md1.last_access_timestamp (cs.map AddCall.now) := hrest
      obtain ⟨sd', h1, h2, h3, h4⟩ := ih st1 sd1 md1 htmo1 hsd1 hmd1 hlen1 hchain1
      refine ⟨sd', h1, ?_, h3, ?_⟩
      · rw [h2, hsd1def]
        simp only
        rw [lastSlice_append_left, List.append_assoc]
        rfl
      · rw [h4, hsd1def]
        simp only
        rw [List.map_cons, List.getLastD_cons]

/-- Lock-elided functional behaviour of the `add_message_to_session`
critical-section body (what claim C4 describes, and what the code would do
if its session lock were reentrant; the real call deadlocks, see
`claim_C4_deadlock`): (1) after any call on any state whose histories
respect the 100-message cap, every history still respects it; (2) the
call returns `false` exactly when the session is absent or expired; (3) a
successful call appends the message built from its arguments, trims the
history to the last 100, and stamps `last_activity = now`; (4) across any
sequence of successful calls the retained history is exactly the last-100
slice of the appended messages in chronological (arrival) order. -/
theorem add_message_history_cap_lock_free {α : Type} :
    (∀ (st : SessionManager α) (sid role content : String)
        (meta : List (String × α)) (now : Int),
      (∀ p ∈ st.sessions, p.2.conversation_history.length ≤ 100) →
      ∀ p ∈ (st.add_message_to_session sid role content meta now).2.sessions,
        p.2.conversation_history.length ≤ 100) ∧
    (∀ (st : SessionManager α) (sid role content : String)
        (meta : List (String × α)) (now : Int), 0 ≤ st.session_timeout →
      ((st.add_message_to_session sid role content meta now).1 = false ↔
        (alookup st.sessions sid = none ∨ st.is_session_expired sid now = true))) ∧
    (∀ (st : SessionManager α) (sid role content : String)
        (meta : List (String × α)) (now : Int) (sd : SessionData α)
        (md : SessionMeta), 0 ≤ st.session_timeout →
      alookup st.sessions sid = some sd →
      alookup st.session_metadata sid = some md →
      ¬ now - md.last_access_timestamp > st.session_timeout →
      (st.add_message_to_session sid role content meta now).1 = true ∧
      alookup (st.add_message_to_session sid role content meta now).2.sessions sid =
        some ({ sd with
            conversation_history :=
              lastSlice 100 (sd.conversation_history ++ [⟨role, content, now, meta⟩]),
            last_activity := now })) ∧
    (∀ (calls : List (AddCall α)) (st : SessionManager α) (sid : String)
        (sd : SessionData α) (md : SessionMeta), 0 ≤ st.session_timeout →
      alookup st.sessions sid = some sd →
      alookup st.session_metadata sid = some md →
      sd.conversation_history.length ≤ 100 →
      List.Chain (fun a b => b - a ≤ st.session_timeout)
        md.last_access_timestamp (calls.map AddCall.now) →
      ∃ sd', alookup (runAdds sid st calls).sessions sid = some sd' ∧
        sd'.conversation_history =
          lastSlice 100 (sd.conversation_history ++ calls.map mkMessage) ∧
        sd'.conversation_history.length ≤ 100 ∧
        sd'.last_activity = (calls.map AddCall.now).getLastD sd.last_activity) := by
  refine ⟨add_message_inv100, add_message_false_iff, ?_, runAdds_spec⟩
  intro st sid role content meta now sd md htmo hsd hmd hlive
  rw [SessionManager.add_message_success st sid role content meta now sd md
    hsd hmd hlive htmo]
  exact ⟨rfl, alookup_aset_self _ _ _⟩

/-- Concrete instance of the lock-elided behaviour: two messages added to
a fresh session with timeout 10 at times 1 and 2. -/
theorem add_message_history_cap_lock_free_example :
    ∃ sd', alookup (runAdds "s1"
        (((SessionManager.init Int 10 5).create_session "s1" none 0).2)
        [⟨"user", "hi", [], 1⟩, ⟨"assistant", "yo", [], 2⟩]).sessions "s1" = some sd' ∧
      sd'.conversation_history.length ≤ 100 ∧ sd'.last_activity = 2 := by
  obtain ⟨sd', h1, _, h3, h4⟩ := (@add_message_history_cap_lock_free Int).2.2.2
    [⟨"user", "hi", [], 1⟩, ⟨"assistant", "yo", [], 2⟩]
    (((SessionManager.init Int 10 5).create_session "s1" none 0).2) "s1"
    ⟨"s1", 0, 0, none, "active", [], [], []⟩ ⟨0, 0, 1⟩
    (by decide) (by decide) (by decide) (by decide)
    (List.Chain.cons (by decide) (List.Chain.cons (by decide) List.Chain.nil))
  exact ⟨sd', h1, h3, by rw [h4]; rfl⟩

/-- C4: the code, not the claim, is at fault. `add_message_to_session`
acquires the non-reentrant per-session lock and then, still holding it,
calls `get_session`, whose first statement acquires the same lock — so
under the lock-aware semantics every call, for every store state and
every argument (in particular at the failing input of a freshly created
live session), deadlocks (`none`): it never appends a message, never
updates `last_activity`, and never returns a boolean. The behaviour the
claim describes is exactly that of the critical-section body, proved
separately as `add_message_history_cap_lock_free`. -/
theorem claim_C4_deadlock {α : Type} (st : SessionManager α)
    (sid role content : String) (meta : List (String × α)) (now : Int) :
    SessionManager.add_message_to_session_locked st sid role content meta now = none := by
  unfold SessionManager.add_message_to_session_locked SessionManager.get_session_locked
  simp

/-! ## Claim C6 (what decides idle expiry) -/

/-- C6 counterexample: with `session_timeout = 10`, session `"s1"` is
created at time 0 (so `last_activity = 0`, bumped by nothing since), read
passively at time 5, and read again at time 12. The claim demands absent
at time 12 (because `12 - last_activity = 12 > 10` and only
`update_session`/`add_message` may prevent idle expiry), but the code
returns the session: the passive read at time 5 refreshed the very
timestamp the expiry check uses. -/
theorem claim_C6_counterexample :
    c6run.session_timeout = 10 ∧
    (alookup c6run.sessions "s1").map (fun d => d.last_activity) = some 0 ∧
    ((12 : Int) - 0 > c6run.session_timeout) ∧
    (c6run.get_session "s1" 12).1.isSome = true := by
  decide

/-- C6, amended: `get_session` returns absent and deletes the record
exactly when the session is missing or
`now - last_access_timestamp > session_timeout`; the expiry check reads
the metadata `last_access_timestamp` — not `last_activity` — and a
successful passive read refreshes that same timestamp to `now` (leaving
the record, including `last_activity`, unchanged), so repeated reads DO
prevent the session from idle-expiring. -/
theorem claim_C6_last_access_expiry {α : Type} (st : SessionManager α)
    (sid : String) (now : Int) :
    (alookup st.sessions sid = none → st.get_session sid now = (none, st)) ∧
    (∀ sd : SessionData α, alookup st.sessions sid = some sd →
      (((st.get_session sid now).1 = none ↔ st.is_session_expired sid now = true) ∧
       (st.is_session_expired sid now = true →
         (st.get_session sid now).2.sessions = aerase st.sessions sid ∧
         (st.get_session sid now).2.session_metadata =
           aerase st.session_metadata sid))) ∧
    (∀ md : SessionMeta, alookup st.session_metadata sid = some md →
      (st.is_session_expired sid now = true ↔
        now - md.last_access_timestamp > st.session_timeout)) ∧
    (∀ (sd : SessionData α) (md : SessionMeta),
      alookup st.sessions sid = some sd →
      alookup st.session_metadata sid = some md →
      st.is_session_expired sid now = false →
      (st.get_session sid now).1 = some sd ∧
      (st.get_session sid now).2.sessions = st.sessions ∧
      alookup (st.get_session sid now).2.session_metadata sid =
        some ({ md with last_access_timestamp := now,
                        access_count := md.access_count + 1 })) := by
  refine ⟨?_, ?_, ?_, ?_⟩
  · intro hsd
    exact SessionManager.get_session_absent st sid now hsd
  · intro sd hsd
    constructor
    · constructor
      · intro hnone
        rcases hexp : st.is_session_expired sid now with _ | _
        · rw [SessionManager.get_session_success st sid now sd hsd hexp] at hnone
          simp at hnone
        · rfl
      · intro hexp
        rw [SessionManager.get_session_expired st sid now sd hsd hexp]
    · intro hexp
      rw [SessionManager.get_session_expired st sid now sd hsd hexp]
      obtain ⟨h1, h2, _, _⟩ := SessionManager.delete_session_core_maps st sid
      exact ⟨h1, h2⟩
  · intro md hmd
    rw [SessionManager.is_session_expired_eq st sid now md hmd]
    simp
  · intro sd md hsd hmd hexp
    rw [SessionManager.get_session_success st sid now sd hsd hexp,
      SessionManager.update_session_access_eq st sid now md hmd]
    exact ⟨rfl, rfl, alookup_aset_self _ _ _⟩

/-- Witness for C6 at a concrete input: the counterexample run read again
at time 12, where the passive read at time 5 keeps it alive and the read
bumps `last_access_timestamp` to 12. -/
theorem claim_C6_witness :
    (c6run.get_session "s1" 12).1.isSome = true ∧
    alookup (c6run.get_session "s1" 12).2.session_metadata "s1" =
      some { created_timestamp := 0, last_access_timestamp := 12, access_count := 3 } := by
  obtain ⟨h1, _, h3⟩ := (claim_C6_last_access_expiry c6run "s1" 12).2.2.2
    ⟨"s1", 0, 0, some 7, "active", [], [], []⟩ ⟨0, 5, 2⟩
    (by decide) (by decide) (by decide)
  refine ⟨?_, h3⟩
  rw [h1]
  rfl

/-! ## Claim C7 (`get_user_sessions` drops live sessions) -/

/-- C7 evaluated at the failing input: for user 7 with the idle-expired
`"s1"` and the live `"s2"` both in the index, `get_user_sessions` returns
the empty list — `get_session` deletes `"s1"` and already prunes it from
the per-user index, the loop's own
`self.user_sessions[user_id].remove("s1")` then raises `ValueError`, and
the blanket `except` turns the whole call into `[]`, dropping the live
session `"s2"` that the claim (and the code's own intent) requires in the
result. -/
theorem claim_C7_code_bug_eval :
    c7run.is_session_expired "s1" 12 = true ∧
    c7run.is_session_expired "s2" 12 = false ∧
    (alookup c7run.user_sessions 7).getD [] = ["s1", "s2"] ∧
    (c7run.get_user_sessions 7 12).1 = [] ∧
    (alookup (c7run.get_user_sessions 7 12).2.sessions "s2").isSome = true ∧
    (c7run.get_user_sessions 7 12).2.is_session_expired "s2" 12 = false := by
  decide

/-! ## Claim C5 (shallow copy returned by `get_session`) -/

/-- C5 counterexample: the record returned by `get_session` shares its
nested `conversation_history` list with the store (`dict.copy()` is
shallow); after the caller appends to that list in place, a subsequent
`get_session` observes the mutated history `[c5msg]` instead of the
original `[]`. -/
theorem claim_C5_counterexample :
    (c5store.get_session "s1" 1).1 =
      some ⟨"s1", 0, 0, some 7, "active", 0, 1⟩ ∧
    (((c5store.get_session "s1" 1).2).observe ⟨"s1", 0, 0, some 7, "active", 0, 1⟩).1 =
      [] ∧
    ((((c5store.get_session "s1" 1).2.mutate_history 0 c5msg).get_session "s1" 2).1 =
      some ⟨"s1", 0, 0, some 7, "active", 0, 1⟩) ∧
    (((((c5store.get_session "s1" 1).2.mutate_history 0 c5msg).get_session
        "s1" 2).2).observe ⟨"s1", 0, 0, some 7, "active", 0, 1⟩).1 = [c5msg] ∧
    ¬ ([c5msg] : List (Message Int)) = [] := by
  decide

namespace RefModel

variable {α : Type}

theorem Store.get_session_some_inv {st : Store α} {sid : String} {now : Int}
    {r : SessionObj} {st1 : Store α}
    (h : st.get_session sid now = (some r, st1)) :
    alookup st.sessions sid = some r ∧
    st.is_session_expired sid now = false ∧
    st1 = st.update_session_access sid now := by
  unfold Store.get_session at h
  rcases hsd : alookup st.sessions sid with _ | sd
  · rw [hsd] at h
    simp at h
  · rw [hsd] at h
    rcases hexp : st.is_session_expired sid now with _ | _
    · rw [hexp] at h
      simp only [Bool.false_eq_true, if_false, Prod.mk.injEq, Option.some.injEq] at h
      exact ⟨by rw [h.1], rfl, h.2.symm⟩
    · rw [hexp] at h
      simp at h

theorem Store.update_session_access_frame (st : Store α) (sid : String) (now : Int) :
    (st.update_session_access sid now).sessions = st.sessions ∧
    (st.update_session_access sid now).heap = st.heap ∧
    (st.update_session_access sid now).session_timeout = st.session_timeout := by
  unfold Store.update_session_access
  rcases alookup st.session_metadata sid with _ | md
  · exact ⟨rfl, rfl, rfl⟩
  · exact ⟨rfl, rfl, rfl⟩

theorem Store.mutate_history_frame (st : Store α) (rr : Nat) (m : Message α) :
    (st.mutate_history rr m).sessions = st.sessions ∧
    (st.mutate_history rr m).session_metadata = st.session_metadata ∧
    (st.mutate_history rr m).session_timeout = st.session_timeout :=
  ⟨rfl, rfl, rfl⟩

end RefModel

/-- C5, amended: `get_session` hands back a *shallow* copy — a fresh
top-level record whose `history_ref`/`context_ref` still address the
store's own nested list and dict objects. So replacing top-level fields of
the returned value cannot affect the store (the store still maps `sid` to
its own record and the heap is untouched by `get_session`), but in-place
mutation of the nested history list or context map through the returned
record is immediately visible in the store, and a later `get_session`
returns a record that dereferences to the mutated data. -/
theorem claim_C5_shallow_copy {α : Type} (st : RefModel.Store α) (sid : String)
    (now : Int) (r : RefModel.SessionObj) (st1 : RefModel.Store α)
    (h : st.get_session sid now = (some r, st1)) :
    (alookup st1.sessions sid = some r ∧ st1.heap = st.heap) ∧
    (∀ m : Message α,
      alookup (st1.mutate_history r.history_ref m).heap.lists r.history_ref =
        some (((alookup st1.heap.lists r.history_ref).getD []) ++ [m])) ∧
    (∀ (k : String) (v : α),
      alookup (st1.mutate_context r.context_ref k v).heap.dicts r.context_ref =
        some (aset ((alookup st1.heap.dicts r.context_ref).getD []) k v)) ∧
    (∀ (m : Message α) (now2 : Int),
      (st1.mutate_history r.history_ref m).is_session_expired sid now2 = false →
      ∃ r2, ((st1.mutate_history r.history_ref m).get_session sid now2).1 = some r2 ∧
        (((st1.mutate_history r.history_ref m).get_session sid now2).2.observe r2).1 =
          ((alookup st1.heap.lists r.history_ref).getD []) ++ [m]) := by
  obtain ⟨hsd, hexp, hst1⟩ := RefModel.Store.get_session_some_inv h
  obtain ⟨hfs, hfh, hft⟩ := RefModel.Store.update_session_access_frame st sid now
  have hsd1 : alookup st1.sessions sid = some r := by
    rw [hst1, hfs]
    exact hsd
  refine ⟨⟨hsd1, by rw [hst1, hfh]⟩, ?_, ?_, ?_⟩
  · intro m
    unfold RefModel.Store.mutate_history
    exact alookup_aset_self _ _ _
  · intro k v
    unfold RefModel.Store.mutate_context
    exact alookup_aset_self _ _ _
  · intro m now2 hexp2
    set st2 := st1.mutate_history r.history_ref m with hst2
    have hsd2 : alookup st2.sessions sid = some r := by
      rw [hst2]
      obtain ⟨hms, _, _⟩ := RefModel.Store.mutate_history_frame st1 r.history_ref m
      rw [hms]
      exact hsd1
    have hget2 : st2.get_session sid now2 = (some r, st2.update_session_access sid now2) := by
      unfold RefModel.Store.get_session
      rw [hsd2]
      simp only [hexp2, Bool.false_eq_true, if_false]
    obtain ⟨_, hfh2, _⟩ := RefModel.Store.update_session_access_frame st2 sid now2
    refine ⟨r, by rw [hget2], ?_⟩
    rw [hget2]
    unfold RefModel.Store.observe
    simp only [hfh2]
    have : alookup st2.heap.lists r.history_ref =
        some (((alookup st1.heap.lists r.history_ref).getD []) ++ [m]) := by
      rw [hst2]
      unfold RefModel.Store.mutate_history
      exact alookup_aset_self _ _ _
    rw [this]
    rfl

/-- Witness for C5 at a concrete input: the `c5store` scenario, where the
in-place append through the returned record is visible to the next
`get_session`. -/
theorem claim_C5_witness :
    ∃ r2, (((c5store.get_session "s1" 1).2.mutate_history 0 c5msg).get_session
        "s1" 2).1 = some r2 ∧
      ((((c5store.get_session "s1" 1).2.mutate_history 0 c5msg).get_session
          "s1" 2).2.observe r2).1 = [c5msg] := by
  obtain ⟨_, _, _, h4⟩ := claim_C5_shallow_copy c5store "s1" 1
    ⟨"s1", 0, 0, some 7, "active", 0, 1⟩ ((c5store.get_session "s1" 1).2)
    (by decide)
  obtain ⟨r2, ha, hb⟩ := h4 c5msg 2 (by decide)
  refine ⟨r2, ha, ?_⟩
  rw [hb]
  rfl

end SWDesign
